import Mathlib

/-!
# springwell-cli: the definition parsers, the naming functions, the generator

A shallow embedding of `pkg/util/util.go` (`ParseFieldDefinitions`,
`ParseRelationships`, `splitByCase`, `ToJavaClassName`, `ToJavaVariableName`,
`ToDatabaseTableName`, `ToColumnName`, `ToPackageName`, `CreateDirectory`,
`WriteFile`), of `pkg/util/string.go` (`ToCamelCase`, `ToCamelCaseFirstLower`,
`ToSnakeCase`, `ToKebabCase`) and of `pkg/generator/entity_generator.go`
(`GenerateEntity`, `generateFromTemplate`), together with the few functions of
Go's `strings`, `regexp`, `unicode` and `text/template` packages they call.

Conventions of the embedding:

* a Go `string` is a `Str`, a list of characters (runes);
* a Go function returning `([]map[string]string, error)` returns
  `Option (List _ × Option Str)`: `none` is a run-time panic (an index out of
  range), `some (records, none)` is a return with a `nil` error and
  `some (records, some msg)` is a return with the error whose message is `msg`;
* a Go function that slices a string returns `Option Str`, `none` being the
  panic of a slice out of range;
* the maps built by the parsers always carry the same keys, so each is a
  structure with one field per key;
* the generator runs in a `World`: a file system of an arbitrary type, reached
  through the operations of an `Env`, and the trace of the calls made so far; a
  Go function returning `error` returns the new world and `Option Str`.
-/

namespace Springwell

/-- A Go string, as the list of its characters. -/
abbrev Str := List Char

/-! ## The Go library functions used by `pkg/util/util.go` -/

/-- Go `strings.Split(s, sep)` for a separator `sep` of one character (the
program only splits on `" "` and on `":"`): the pieces of `s` between the
occurrences of `sep`; there is always at least one piece, and `Split "" sep`
is the one-element list holding the empty string. -/
def Split : Str → Char → List Str
  | [], _ => [[]]
  | c :: cs, sep =>
    if c = sep then [] :: Split cs sep
    else
      match Split cs sep with
      | [] => [[c]]
      | w :: ws => (c :: w) :: ws

/-- Go `strings.Join(elems, sep)`. -/
def Join : List Str → Str → Str
  | [], _ => []
  | [w], _ => w
  | w :: v :: ws, sep => w ++ sep ++ Join (v :: ws) sep

/-- Go `strings.ReplaceAll(s, old, new)` for an `old` of one character. -/
def ReplaceAll : Str → Char → Str → Str
  | [], _, _ => []
  | c :: cs, old, new =>
    if c = old then new ++ ReplaceAll cs old new else c :: ReplaceAll cs old new

/-- Go `unicode.IsSpace`: the code points with the White_Space property. -/
def IsSpace (c : Char) : Bool :=
  let n := c.toNat
  (9 ≤ n && n ≤ 13) || n = 32 || n = 0x85 || n = 0xA0 || n = 0x1680 ||
    (0x2000 ≤ n && n ≤ 0x200a) || n = 0x2028 || n = 0x2029 || n = 0x202f ||
    n = 0x205f || n = 0x3000

/-- Go `strings.Fields(s)`: the maximal runs of non-space characters of `s`,
in order; no field is empty. -/
def Fields : Str → List Str
  | [] => []
  | c :: cs =>
    if IsSpace c then Fields cs
    else
      match cs with
      | [] => [[c]]
      | d :: _ =>
        if IsSpace d then [c] :: Fields cs
        else
          match Fields cs with
          | [] => [[c]]
          | w :: ws => (c :: w) :: ws

/-- The regular-expression class `[a-z]`. -/
def isLowerAZ (c : Char) : Bool := 'a'.toNat ≤ c.toNat && c.toNat ≤ 'z'.toNat

/-- The regular-expression class `[A-Z]`. -/
def isUpperAZ (c : Char) : Bool := 'A'.toNat ≤ c.toNat && c.toNat ≤ 'Z'.toNat

/-- The two lines
`re := regexp.MustCompile("([a-z])([A-Z])")` and
`s = re.ReplaceAllString(s, "$1 $2")` of `splitByCase`: scanning from the
left, every non-overlapping occurrence of a letter of `[a-z]` directly followed
by a letter of `[A-Z]` gets one space inserted between the two letters. -/
def insertCaseBreaks : Str → Str
  | [] => []
  | [a] => [a]
  | a :: b :: rest =>
    if isLowerAZ a && isUpperAZ b then a :: ' ' :: b :: insertCaseBreaks rest
    else a :: insertCaseBreaks (b :: rest)

/-- The lower-case mapping of one character. Go's `unicode.ToLower` is modelled
on the ASCII letters, which is the alphabet of the identifiers this tool is
given; every other character is left as it is. -/
def toLowerRune (c : Char) : Char :=
  if isUpperAZ c then Char.ofNat (c.toNat + 32) else c

/-- Go `strings.ToLower(s)` (ASCII case mapping, see `toLowerRune`). -/
def ToLower (s : Str) : Str := s.map toLowerRune

/-! ## `pkg/util/util.go` -/

/-- The function `splitByCase`: hyphens and underscores become spaces, a space
is inserted at every lower-to-upper transition, and the result is cut into its
fields. -/
def splitByCase (s : Str) : List Str :=
  let s := ReplaceAll s '-' " ".toList
  let s := ReplaceAll s '_' " ".toList
  let s := insertCaseBreaks s
  Fields s

/-- The function `ToDatabaseTableName`: the words of `splitByCase`, each
lower-cased, joined by underscores. -/
def ToDatabaseTableName (name : Str) : Str :=
  let words := splitByCase name
  let words := words.map ToLower
  Join words "_".toList

/-- The function `ToColumnName`. -/
def ToColumnName (name : Str) : Str := ToDatabaseTableName name

/-- The map built for one field by `ParseFieldDefinitions`; its keys are
`"name"`, `"type"`, `"columnName"` and `"nullable"`. -/
structure FieldMap where
  name : Str
  type : Str
  columnName : Str
  nullable : Str
  deriving DecidableEq

/-- The map built for one relationship by `ParseRelationships`; its keys are
`"type"`, `"field"` and `"entity"`. -/
structure RelationMap where
  type : Str
  field : Str
  entity : Str
  deriving DecidableEq

/-- The message of
`fmt.Errorf("invalid field format: %s, expected name:type[:modifier]", field)`. -/
def fieldFormatError (field : Str) : Str :=
  "invalid field format: ".toList ++ field ++ ", expected name:type[:modifier]".toList

/-- The message of
`fmt.Errorf("invalid relationship format: %s, expected type:field:entity", relation)`. -/
def relationFormatError (relation : Str) : Str :=
  "invalid relationship format: ".toList ++ relation ++ ", expected type:field:entity".toList

/-- The message of `fmt.Errorf("invalid relationship type: %s, expected
oneToOne, oneToMany, manyToOne, or manyToMany", relationType)`. -/
def relationTypeError (relationType : Str) : Str :=
  "invalid relationship type: ".toList ++ relationType ++
    ", expected oneToOne, oneToMany, manyToOne, or manyToMany".toList

/-- The `for _, field := range fieldsList` loop of `ParseFieldDefinitions`,
with the slice `result` built so far. -/
def parseFieldsLoop : List Str → List FieldMap → Option (List FieldMap × Option Str)
  | [], result => some (result, none)
  | field :: rest, result =>
    let parts := Split field ':'
    if parts.length < 2 then
      some ([], some (fieldFormatError field))
    else do
      let p0 ← parts[0]?
      let p1 ← parts[1]?
      let columnName := ToColumnName p0
      let nullable ←
        if parts.length > 2 then do
          let p2 ← parts[2]?
          pure (if p2 = "nullable".toList then "true".toList else "false".toList)
        else pure "false".toList
      parseFieldsLoop rest
        (result ++ [{ name := p0, type := p1, columnName := columnName, nullable := nullable }])

/-- The function `ParseFieldDefinitions`. -/
def ParseFieldDefinitions (fields : Str) : Option (List FieldMap × Option Str) :=
  if fields = [] then some ([], none)
  else
    let fieldsList := Split fields ' '
    parseFieldsLoop fieldsList []

/-- The map literal `validTypes` of `ParseRelationships`, read at `relationType`
(a key that is absent reads as `false`). -/
def validTypes (relationType : Str) : Bool :=
  relationType = "oneToOne".toList || relationType = "oneToMany".toList ||
    relationType = "manyToOne".toList || relationType = "manyToMany".toList

/-- The `for _, relation := range relationsList` loop of `ParseRelationships`,
with the slice `result` built so far. -/
def parseRelationsLoop :
    List Str → List RelationMap → Option (List RelationMap × Option Str)
  | [], result => some (result, none)
  | relation :: rest, result =>
    let parts := Split relation ':'
    if parts.length ≠ 3 then
      some ([], some (relationFormatError relation))
    else do
      let relationType ← parts[0]?
      let field ← parts[1]?
      let entity ← parts[2]?
      if !validTypes relationType then
        some ([], some (relationTypeError relationType))
      else
        parseRelationsLoop rest
          (result ++ [{ type := relationType, field := field, entity := entity }])

/-- The function `ParseRelationships`. -/
def ParseRelationships (relations : Str) : Option (List RelationMap × Option Str) :=
  if relations = [] then some ([], none)
  else
    let relationsList := Split relations ' '
    parseRelationsLoop relationsList []

/-! ## More of the Go library: slices, upper case, `strings.Title`, and the
regular expression of `pkg/util/string.go` -/

/-- The Go slice expression `s[lo:hi]`; `none` is the run-time panic of a slice
out of range. The identifiers the claims are about are ASCII, where slicing
bytes and slicing characters coincide. -/
def slice (s : Str) (lo hi : Nat) : Option Str :=
  if lo ≤ hi ∧ hi ≤ s.length then some ((s.drop lo).take (hi - lo)) else none

/-- The Go slice expression `s[lo:]`; `none` is the run-time panic. -/
def sliceFrom (s : Str) (lo : Nat) : Option Str :=
  if lo ≤ s.length then some (s.drop lo) else none

/-- The upper-case mapping of one character, on the ASCII letters (as for
`toLowerRune`). It is also the title-case mapping `unicode.ToTitle` there. -/
def toUpperRune (c : Char) : Char :=
  if isLowerAZ c then Char.ofNat (c.toNat - 32) else c

/-- Go `strings.ToUpper(s)` (ASCII case mapping). -/
def ToUpper (s : Str) : Str := s.map toUpperRune

/-- The regular-expression class `[0-9]`. -/
def isDigit09 (c : Char) : Bool := '0'.toNat ≤ c.toNat && c.toNat ≤ '9'.toNat

/-- The regular-expression class `[a-zA-Z0-9]`. -/
def isAlnum (c : Char) : Bool := isLowerAZ c || isUpperAZ c || isDigit09 c

/-- The expression
`regexp.MustCompile("[^a-zA-Z0-9]+").ReplaceAllString(s, " ")` of
`pkg/util/string.go`: every maximal run of characters outside `[a-zA-Z0-9]`
becomes one space (the space is written at the last character of the run). -/
def replaceNonAlnum : Str → Str
  | [] => []
  | [c] => if isAlnum c then [c] else [' ']
  | c :: d :: rest =>
    if isAlnum c then c :: replaceNonAlnum (d :: rest)
    else if isAlnum d then ' ' :: replaceNonAlnum (d :: rest)
    else replaceNonAlnum (d :: rest)

/-- The function `isSeparator` of Go's `strings` package, which `strings.Title`
uses to find the starts of words: below `0x80` everything but the letters, the
digits and the underscore separates; above, a letter or a digit does not and
anything else separates exactly when it is a space, which is `unicode.IsSpace`
since no letter or digit is a space. -/
def isSeparator (r : Char) : Bool :=
  if r.toNat ≤ 0x7F then !(isDigit09 r || isLowerAZ r || isUpperAZ r || r = '_')
  else IsSpace r

/-- The closure passed to `strings.Map` in `strings.Title`, run over the string
with `prev`, the previous character. -/
def titleFrom (prev : Char) : Str → Str
  | [] => []
  | r :: rs => (if isSeparator prev then toUpperRune r else r) :: titleFrom r rs

/-- Go `strings.Title(s)`: the first letter of every word is mapped to title
case; the scan starts with `prev := ' '`. -/
def Title (s : Str) : Str := titleFrom ' ' s

/-! ## `pkg/util/util.go`: the remaining naming functions -/

/-- The body of the loop of `ToJavaClassName` for one word:
`strings.ToUpper(word[0:1]) + strings.ToLower(word[1:])` when the word is not
empty, the word itself otherwise. -/
def classNameWord (word : Str) : Option Str :=
  if word.length > 0 then do
    let first ← slice word 0 1
    let rest ← sliceFrom word 1
    pure (ToUpper first ++ ToLower rest)
  else pure word

/-- The loop `for i, word := range words` of `ToJavaClassName`. -/
def classNameLoop : List Str → Option (List Str)
  | [] => some []
  | word :: rest => do
    let w ← classNameWord word
    let ws ← classNameLoop rest
    pure (w :: ws)

/-- The function `ToJavaClassName` (`none`: a slice out of range). -/
def ToJavaClassName (name : Str) : Option Str := do
  let words := splitByCase name
  let words ← classNameLoop words
  pure (Join words [])

/-- The function `ToJavaVariableName` (`none`: a slice out of range). -/
def ToJavaVariableName (name : Str) : Option Str := do
  let className ← ToJavaClassName name
  if className.length > 0 then do
    let first ← slice className 0 1
    let rest ← sliceFrom className 1
    pure (ToLower first ++ rest)
  else pure []

/-- The function `ToPackageName`. -/
def ToPackageName (name : Str) : Str :=
  let name := ToLower name
  let name := ReplaceAll name '-' ".".toList
  let name := ReplaceAll name '_' ".".toList
  name

/-! ## `pkg/util/string.go` -/

/-- The function `ToCamelCase`. -/
def ToCamelCase (s : Str) : Str :=
  let s := replaceNonAlnum s
  let s := Title (ToLower s)
  let s := ReplaceAll s ' ' []
  s

/-- The function `ToCamelCaseFirstLower` (`none`: a slice out of range). -/
def ToCamelCaseFirstLower (s : Str) : Option Str :=
  let s := ToCamelCase s
  if s.length = 0 then some s
  else do
    let first ← slice s 0 1
    let rest ← sliceFrom s 1
    pure (ToLower first ++ rest)

/-- The function `ToSnakeCase`. -/
def ToSnakeCase (s : Str) : Str :=
  let s := replaceNonAlnum s
  let s := ToLower (ReplaceAll s ' ' "_".toList)
  s

/-- The function `ToKebabCase`. -/
def ToKebabCase (s : Str) : Str :=
  let s := replaceNonAlnum s
  let s := ToLower (ReplaceAll s ' ' "-".toList)
  s

/-! ## The world of the generator: files, paths, and Go's `text/template` -/

/-- The fields of `config.Config.Project` that the generator reads. -/
structure ProjectConfig where
  Package : Str
  deriving DecidableEq

/-- The fields of `config.Config.Templates`. -/
structure TemplatesConfig where
  Directory : Str
  deriving DecidableEq

/-- The part of `config.Config` that the generator reads. -/
structure Config where
  Project : ProjectConfig
  Templates : TemplatesConfig
  deriving DecidableEq

/-- The struct `EntityGenerator`. -/
structure EntityGenerator where
  Config : Config
  ProjectDir : Str
  deriving DecidableEq

/-- The binding map `data` that `GenerateEntity` builds, one field per key. -/
structure TemplateData where
  name : Str
  nameCamel : Str
  namePlural : Str
  package : Str
  tableName : Str
  fields : List FieldMap
  relations : List RelationMap
  audit : Bool
  lombok : Bool
  deriving DecidableEq

/-- The values held by the binding map. -/
inductive Value
  | str (s : Str)
  | bool (b : Bool)
  | fieldMaps (l : List FieldMap)
  | relationMaps (l : List RelationMap)
  deriving DecidableEq

/-- The map index `data[key]`: `none` when the key is absent. -/
def TemplateData.lookup (data : TemplateData) (key : Str) : Option Value :=
  if key = "name".toList then some (.str data.name)
  else if key = "nameCamel".toList then some (.str data.nameCamel)
  else if key = "namePlural".toList then some (.str data.namePlural)
  else if key = "package".toList then some (.str data.package)
  else if key = "tableName".toList then some (.str data.tableName)
  else if key = "fields".toList then some (.fieldMaps data.fields)
  else if key = "relations".toList then some (.relationMaps data.relations)
  else if key = "audit".toList then some (.bool data.audit)
  else if key = "lombok".toList then some (.bool data.lombok)
  else none

/-- Go's `fmt` printing of a value of the binding map, which `text/template`
uses for the result of an action: a string is itself, a boolean is `true` or
`false`, a map is `map[k:v ...]` with its keys in sorted order and a slice is
its elements between brackets, separated by spaces. -/
def printValue : Value → Str
  | .str s => s
  | .bool b => if b then "true".toList else "false".toList
  | .fieldMaps l =>
    "[".toList ++ Join (l.map (fun m =>
      "map[columnName:".toList ++ m.columnName ++ " name:".toList ++ m.name ++
        " nullable:".toList ++ m.nullable ++ " type:".toList ++ m.type ++ "]".toList))
      " ".toList ++ "]".toList
  | .relationMaps l =>
    "[".toList ++ Join (l.map (fun m =>
      "map[entity:".toList ++ m.entity ++ " field:".toList ++ m.field ++
        " type:".toList ++ m.type ++ "]".toList)) " ".toList ++ "]".toList

/-- A node of a parsed template: literal text, the action `{{.key}}` that reads
one key of the binding map, or any other action (`range`, `if`, a pipeline,
...), kept as the function from the bindings to its output or its error. -/
inductive Node
  | text (s : Str)
  | field (key : Str)
  | action (run : TemplateData → Except Str Str)

/-- The execution of one node. The template is executed with the options it
was created with: `generateFromTemplate` sets none, so Go's default
`missingkey=default` applies and a key that the map does not have prints as
`<no value>`. -/
def execNode (data : TemplateData) : Node → Except Str Str
  | .text s => .ok s
  | .field key =>
    match data.lookup key with
    | some v => .ok (printValue v)
    | none => .ok "<no value>".toList
  | .action run => run data

/-- Go `tmpl.Execute(&buf, data)`: the nodes are executed in order into the
buffer, and the first error stops the execution. -/
def Execute : List Node → TemplateData → Except Str Str
  | [], _ => .ok []
  | n :: ns, data =>
    match execNode data n with
    | .error err => .error err
    | .ok out =>
      match Execute ns data with
      | .error err => .error err
      | .ok rest => .ok (out ++ rest)

/-- What the generator is given by the operating system and the Go library,
over a file system of type `σ`: `filepath.Join`, `filepath.Dir`, whether
`os.Stat` returns a `nil` error, whether its error is `os.IsNotExist`,
`os.MkdirAll`, `ioutil.ReadFile`, `os.WriteFile`, and
`template.New(filepath.Base(templatePath)).Funcs(...).Parse(content)`. -/
structure Env (σ : Type) where
  pathJoin : List Str → Str
  dir : Str → Str
  statOk : σ → Str → Bool
  statNotExist : σ → Str → Bool
  mkdirAll : σ → Str → σ × Option Str
  readFile : σ → Str → Except Str Str
  osWriteFile : σ → Str → Str → σ × Option Str
  parse : Str → Str → Except Str (List Node)

/-- One step of a run, as recorded in the trace: a call of
`generateFromTemplate`, a file read, a directory creation, and a call of
`os.WriteFile` with the error it returned. -/
inductive Call
  | generate (templatePath outputPath : Str) (data : TemplateData)
  | readFile (path : Str)
  | mkdirAll (path : Str)
  | writeFile (path content : Str) (err : Option Str)
  deriving DecidableEq

/-- The state of a run: the file system, and the trace of the steps so far. -/
structure World (σ : Type) where
  fs : σ
  trace : List Call

/-- The idiom `if err := step; err != nil { return err }` followed by the rest
of the function. -/
def orReturn {σ : Type} (r : World σ × Option Str) (rest : World σ → World σ × Option Str) :
    World σ × Option Str :=
  match r.2 with
  | some err => (r.1, some err)
  | none => rest r.1

/-! ## `pkg/util/util.go`: writing files -/

/-- The function `CreateDirectory`. -/
def CreateDirectory {σ : Type} (env : Env σ) (path : Str) (w : World σ) :
    World σ × Option Str :=
  if env.statNotExist w.fs path then
    let r := env.mkdirAll w.fs path
    ({ fs := r.1, trace := w.trace ++ [Call.mkdirAll path] }, r.2)
  else (w, none)

/-- The function `WriteFile`. -/
def WriteFile {σ : Type} (env : Env σ) (path content : Str) (w : World σ) :
    World σ × Option Str :=
  let dir := env.dir path
  orReturn (CreateDirectory env dir w) fun w =>
    let r := env.osWriteFile w.fs path content
    ({ fs := r.1, trace := w.trace ++ [Call.writeFile path content r.2] }, r.2)

/-! ## `pkg/generator/entity_generator.go` -/

/-- The method `generateFromTemplate`. -/
def generateFromTemplate {σ : Type} (env : Env σ) (g : EntityGenerator)
    (templatePath outputPath : Str) (data : TemplateData) (w : World σ) :
    World σ × Option Str :=
  let w : World σ := { w with trace := w.trace ++ [Call.generate templatePath outputPath data] }
  let templateDir :=
    if env.statOk w.fs (env.pathJoin [g.ProjectDir, g.Config.Templates.Directory]) then
      env.pathJoin [g.ProjectDir, g.Config.Templates.Directory]
    else env.pathJoin ["pkg".toList, "templates".toList]
  let file := env.pathJoin [templateDir, templatePath]
  let w : World σ := { w with trace := w.trace ++ [Call.readFile file] }
  match env.readFile w.fs file with
  | .error err => (w, some err)
  | .ok templateContent =>
    match env.parse templatePath templateContent with
    | .error err => (w, some err)
    | .ok tmpl =>
      match Execute tmpl data with
      | .error err => (w, some err)
      | .ok buf => WriteFile env outputPath buf w

/-- The directory of the Java sources of the project's package:
`filepath.Join(g.ProjectDir, "src/main/java",
strings.ReplaceAll(g.Config.Project.Package, ".", "/"), sub, file)`. -/
def javaPath {σ : Type} (env : Env σ) (g : EntityGenerator) (sub file : Str) : Str :=
  env.pathJoin [g.ProjectDir, "src/main/java".toList,
    ReplaceAll g.Config.Project.Package '.' "/".toList, sub, file]

/-- Lines 60 to 93 of `GenerateEntity`: the entity, then the repository, the
service, the controller and the DTO when their switch is set; the first error
is returned at once. -/
def generateSteps {σ : Type} (env : Env σ) (g : EntityGenerator) (name : Str)
    (data : TemplateData) (generateDto generateRepo generateService generateController : Bool)
    (w : World σ) : World σ × Option Str :=
  orReturn (generateFromTemplate env g "entity/entity.tmpl".toList
      (javaPath env g "domain/entity".toList (name ++ ".java".toList)) data w) fun w =>
  orReturn (if generateRepo then
      generateFromTemplate env g "entity/repository.tmpl".toList
        (javaPath env g "repository".toList (name ++ "Repository.java".toList)) data w
    else (w, none)) fun w =>
  orReturn (if generateService then
      generateFromTemplate env g "entity/service.tmpl".toList
        (javaPath env g "service".toList (name ++ "Service.java".toList)) data w
    else (w, none)) fun w =>
  orReturn (if generateController then
      generateFromTemplate env g "entity/controller.tmpl".toList
        (javaPath env g "controller".toList (name ++ "Controller.java".toList)) data w
    else (w, none)) fun w =>
  orReturn (if generateDto then
      generateFromTemplate env g "entity/dto.tmpl".toList
        (javaPath env g "dto".toList (name ++ "DTO.java".toList)) data w
    else (w, none)) fun w =>
  (w, none)

/-- The method `GenerateEntity`. The result is `none` on a run-time panic;
otherwise it is the world after the run and the error returned. -/
def GenerateEntity {σ : Type} (env : Env σ) (g : EntityGenerator)
    (name fieldsStr relationsStr tableName : Str)
    (audit lombok generateDto generateRepo generateService generateController : Bool)
    (w : World σ) : Option (World σ × Option Str) :=
  match ParseFieldDefinitions fieldsStr with
  | none => none
  | some (_, some err) => some (w, some err)
  | some (fields, none) =>
    match ParseRelationships relationsStr with
    | none => none
    | some (_, some err) => some (w, some err)
    | some (relations, none) =>
      let tableName := if tableName = [] then ToDatabaseTableName name else tableName
      match ToJavaVariableName name, ToJavaVariableName name with
      | some nameCamel, some nameCamel2 =>
        let data : TemplateData :=
          { name := name,
            nameCamel := nameCamel,
            namePlural := nameCamel2 ++ "s".toList,
            package := g.Config.Project.Package,
            tableName := tableName,
            fields := fields,
            relations := relations,
            audit := audit,
            lombok := lombok }
        some (generateSteps env g name data generateDto generateRepo generateService
          generateController w)
      | _, _ => none

/-! ## `pkg/commands/interactive.go`: the names of a generated component -/

/-- The value substituted for `${className}` in `generateController` and
`generateService`: `className := util.ToCamelCase(name)`. -/
def interactiveClassName (name : Str) : Str := ToCamelCase name

/-- The value substituted for `${variableName}` in `generateController` and
`generateService`: `util.ToCamelCaseFirstLower(className)`. -/
def interactiveVariableName (name : Str) : Option Str :=
  ToCamelCaseFirstLower (interactiveClassName name)

/-! ## Auxiliary definitions used to state the properties -/

/-- The record that one accepted token of a field specification contributes:
the parts of the token are read positionally. -/
def fieldOfToken (tok : Str) : FieldMap :=
  let parts := Split tok ':'
  { name := parts.getD 0 [],
    type := parts.getD 1 [],
    columnName := ToColumnName (parts.getD 0 []),
    nullable := if parts[2]? = some "nullable".toList then "true".toList else "false".toList }

/-- The record that one accepted token of a relationship specification
contributes. -/
def relationOfToken (tok : Str) : RelationMap :=
  let parts := Split tok ':'
  { type := parts.getD 0 [], field := parts.getD 1 [], entity := parts.getD 2 [] }

/-- A part of a token: a string with no space and no colon in it. -/
def CleanPart (s : Str) : Prop := ' ' ∉ s ∧ ':' ∉ s

instance (s : Str) : Decidable (CleanPart s) := by
  unfold CleanPart; infer_instance

/-- A field token as the user writes it: `name:type`, or `name:type:modifier`
when a modifier is given. -/
structure FieldToken where
  name : Str
  type : Str
  modifier : Option Str
  deriving DecidableEq

/-- The text of a field token. -/
def FieldToken.render (t : FieldToken) : Str :=
  match t.modifier with
  | none => t.name ++ ':' :: t.type
  | some m => t.name ++ ':' :: (t.type ++ ':' :: m)

/-- Every part of the token is free of spaces and colons. -/
def FieldToken.WellFormed (t : FieldToken) : Prop :=
  CleanPart t.name ∧ CleanPart t.type ∧
    match t.modifier with
    | none => True
    | some m => CleanPart m

instance (t : FieldToken) : Decidable t.WellFormed := by
  unfold FieldToken.WellFormed
  cases t.modifier <;> infer_instance

/-- A relationship token as the user writes it: `kind:field:entity`. -/
structure RelationToken where
  kind : Str
  field : Str
  entity : Str
  deriving DecidableEq

/-- The text of a relationship token. -/
def RelationToken.render (t : RelationToken) : Str :=
  t.kind ++ ':' :: (t.field ++ ':' :: t.entity)

/-- The kind is one of the four names the parser knows, and the field and the
entity are free of spaces and colons. -/
def RelationToken.WellFormed (t : RelationToken) : Prop :=
  (t.kind = "oneToOne".toList ∨ t.kind = "oneToMany".toList ∨
      t.kind = "manyToOne".toList ∨ t.kind = "manyToMany".toList) ∧
    CleanPart t.field ∧ CleanPart t.entity

instance (t : RelationToken) : Decidable t.WellFormed := by
  unfold RelationToken.WellFormed; infer_instance

/-- Rendering of one parsed field back to the notation of the specification:
`name:type`, followed by `:nullable` when the record's `nullable` is `"true"`. -/
def renderField (r : FieldMap) : Str :=
  if r.nullable = "true".toList then r.name ++ ':' :: (r.type ++ ":nullable".toList)
  else r.name ++ ':' :: r.type

/-- A token with its third part dropped unless that part is the literal
`nullable`; tokens of any other shape are kept as they are. -/
def dropUnknownModifier (tok : Str) : Str :=
  match Split tok ':' with
  | [a, b, c] => if c = "nullable".toList then tok else a ++ ':' :: b
  | _ => tok

/-- A word of the claims on naming: not empty, all of its characters in
`[a-z]`. -/
def LowerWord (w : Str) : Prop := w ≠ [] ∧ ∀ c ∈ w, isLowerAZ c = true

instance (w : Str) : Decidable (LowerWord w) := by
  unfold LowerWord; infer_instance

/-- A word made of ASCII letters: not empty, all of its characters in
`[a-zA-Z]`. -/
def LetterWord (w : Str) : Prop := w ≠ [] ∧ ∀ c ∈ w, (isLowerAZ c || isUpperAZ c) = true

instance (w : Str) : Decidable (LetterWord w) := by
  unfold LetterWord; infer_instance

/-- Some character of `[a-z]` is directly followed by a character of
`[A-Z]`. -/
def hasCaseBreak : Str → Bool
  | [] => false
  | [_] => false
  | a :: b :: rest => (isLowerAZ a && isUpperAZ b) || hasCaseBreak (b :: rest)

/-- No character of `[a-z]` is directly followed by a character of `[A-Z]`. -/
def NoCaseBreak (s : Str) : Prop := hasCaseBreak s = false

instance (s : Str) : Decidable (NoCaseBreak s) := by
  unfold NoCaseBreak; infer_instance

/-- A word with its first letter upper-cased and its other letters
lower-cased. -/
def Capitalize : Str → Str
  | [] => []
  | c :: cs => toUpperRune c :: cs.map toLowerRune

/-- The PascalCase concatenation of a list of words: each word capitalised, no
separator. -/
def Pascal (words : List Str) : Str := Join (words.map Capitalize) []

/-- An ASCII string: every character is below `0x80`. -/
def IsAscii (s : Str) : Prop := ∀ c ∈ s, c.toNat < 128

instance (s : Str) : Decidable (IsAscii s) := by
  unfold IsAscii; infer_instance

/-- The artifacts that a call of `GenerateEntity` asks for, each as the pair of
its template and its output path: the entity, then one artifact per switch that
is set, in the order repository, service, controller, DTO. -/
def artifacts {σ : Type} (env : Env σ) (g : EntityGenerator) (name : Str)
    (generateDto generateRepo generateService generateController : Bool) : List (Str × Str) :=
  [("entity/entity.tmpl".toList, javaPath env g "domain/entity".toList (name ++ ".java".toList))]
    ++ (if generateRepo then
          [("entity/repository.tmpl".toList,
            javaPath env g "repository".toList (name ++ "Repository.java".toList))]
        else [])
    ++ (if generateService then
          [("entity/service.tmpl".toList,
            javaPath env g "service".toList (name ++ "Service.java".toList))]
        else [])
    ++ (if generateController then
          [("entity/controller.tmpl".toList,
            javaPath env g "controller".toList (name ++ "Controller.java".toList))]
        else [])
    ++ (if generateDto then
          [("entity/dto.tmpl".toList, javaPath env g "dto".toList (name ++ "DTO.java".toList))]
        else [])

/-- Generation of a list of artifacts one after the other with the same
bindings, stopping at the first error. -/
def runArtifacts {σ : Type} (env : Env σ) (g : EntityGenerator) (data : TemplateData) :
    List (Str × Str) → World σ → World σ × Option Str
  | [], w => (w, none)
  | a :: rest, w =>
    orReturn (generateFromTemplate env g a.1 a.2 data w) (runArtifacts env g data rest)

/-- The calls of `generateFromTemplate` in a trace: template, output path and
bindings of each, in order. -/
def generateCalls : List Call → List (Str × Str × TemplateData)
  | [] => []
  | .generate t o d :: cs => (t, o, d) :: generateCalls cs
  | .readFile _ :: cs => generateCalls cs
  | .mkdirAll _ :: cs => generateCalls cs
  | .writeFile _ _ _ :: cs => generateCalls cs

/-- The files written in a trace: path and content of every `os.WriteFile` that
returned a `nil` error, in order. -/
def writtenFiles : List Call → List (Str × Str)
  | [] => []
  | .writeFile p c none :: cs => (p, c) :: writtenFiles cs
  | .writeFile _ _ (some _) :: cs => writtenFiles cs
  | .generate _ _ _ :: cs => writtenFiles cs
  | .readFile _ :: cs => writtenFiles cs
  | .mkdirAll _ :: cs => writtenFiles cs

/-- The files read in a trace, in order. -/
def readFiles : List Call → List Str
  | [] => []
  | .readFile p :: cs => p :: readFiles cs
  | .generate _ _ _ :: cs => readFiles cs
  | .mkdirAll _ :: cs => readFiles cs
  | .writeFile _ _ _ :: cs => readFiles cs

/-- A string with its first character lower-cased. -/
def lowerFirst : Str → Str
  | [] => []
  | c :: cs => toLowerRune c :: cs

/-- An example of a world: the file system is the list of its files, path and
content; directories never have to be created, every write succeeds, and paths
are joined with `/`. The override directory exists or not as `overrideExists`
says, and `parse` is the template parser. -/
def memEnv (overrideExists : Bool) (parse : Str → Str → Except Str (List Node)) :
    Env (List (Str × Str)) where
  pathJoin := fun parts => Join parts "/".toList
  dir := fun p => p
  statOk := fun _ _ => overrideExists
  statNotExist := fun _ _ => false
  mkdirAll := fun fs _ => (fs, none)
  readFile := fun fs p =>
    match fs.lookup p with
    | some c => .ok c
    | none => .error "no such file".toList
  osWriteFile := fun fs p c => ((p, c) :: fs, none)
  parse := parse

/-- The generator of the examples: project directory `.`, package `com.x`,
override templates under `tpl`. -/
def demoGenerator : EntityGenerator :=
  { Config := { Project := { Package := "com.x".toList },
                Templates := { Directory := "tpl".toList } },
    ProjectDir := ".".toList }

/-- The binding map of a call of `GenerateEntity` whose two specifications have
been parsed to `fields` and `relations`: the variable name is the class name
with its first character lower-cased, and the table name is the argument, or
`ToDatabaseTableName name` when the argument is empty. -/
def entityData (g : EntityGenerator) (name tableName : Str) (fields : List FieldMap)
    (relations : List RelationMap) (audit lombok : Bool) : TemplateData :=
  { name := name,
    nameCamel := lowerFirst (Pascal (splitByCase name)),
    namePlural := lowerFirst (Pascal (splitByCase name)) ++ "s".toList,
    package := g.Config.Project.Package,
    tableName := if tableName = [] then ToDatabaseTableName name else tableName,
    fields := fields,
    relations := relations,
    audit := audit,
    lombok := lombok }

/-- The world of the examples before a run: the given files, an empty trace. -/
def startWorld (files : List (Str × Str)) : World (List (Str × Str)) :=
  { fs := files, trace := [] }

/-- The parser of the examples: a template is one piece of literal text. -/
def textParse : Str → Str → Except Str (List Node) :=
  fun _ content => .ok [Node.text content]

/-- The built-in templates of the examples, each with its name as content. -/
def demoTemplates : List (Str × Str) :=
  [("pkg/templates/entity/entity.tmpl".toList, "entity".toList),
   ("pkg/templates/entity/repository.tmpl".toList, "repository".toList),
   ("pkg/templates/entity/service.tmpl".toList, "service".toList),
   ("pkg/templates/entity/controller.tmpl".toList, "controller".toList),
   ("pkg/templates/entity/dto.tmpl".toList, "dto".toList)]

/-- The binding map of the examples on single renders. -/
def demoData : TemplateData :=
  entityData demoGenerator "User".toList "".toList [] [] true true

/-- A parser of the examples: every template is the text `Hello ` followed by
the action that reads the key `missing`. -/
def missingKeyParse : Str → Str → Except Str (List Node) :=
  fun _ _ => .ok [Node.text "Hello ".toList, Node.field "missing".toList]

/-- A parser of the examples: every template is the text `Hello `, the action
that reads the key `missing`, the text `, ` and an action that succeeds, with
the entity name in upper case as its output. -/
def missingKeyActionParse : Str → Str → Except Str (List Node) :=
  fun _ _ => .ok [Node.text "Hello ".toList, Node.field "missing".toList,
    Node.text ", ".toList, Node.action (fun data => .ok (ToUpper data.name))]

/-! ## Lemmas on `Split` and `Join` -/

theorem Split_ne_nil (s : Str) (sep : Char) : Split s sep ≠ [] := by
  induction s with
  | nil => simp [Split]
  | cons c cs ih =>
    unfold Split
    split_ifs
    · simp
    · split <;> simp

theorem length_Split (s : Str) (sep : Char) : (Split s sep).length = s.count sep + 1 := by
  induction s with
  | nil => simp [Split]
  | cons c cs ih =>
    unfold Split
    by_cases h : c = sep
    · subst h
      simp [ih]
    · rw [if_neg h, List.count_cons_of_ne (Ne.symm h)]
      split
      · rename_i heq
        exact absurd heq (Split_ne_nil cs sep)
      · rename_i w ws heq
        rw [heq] at ih
        simpa using ih

theorem Split_of_not_mem (s : Str) (sep : Char) (h : sep ∉ s) : Split s sep = [s] := by
  induction s with
  | nil => simp [Split]
  | cons c cs ih =>
    have hc : c ≠ sep := fun e => h (by simp [e])
    have hcs : sep ∉ cs := fun e => h (by simp [e])
    unfold Split
    rw [if_neg hc, ih hcs]

theorem Split_append_sep (a b : Str) (sep : Char) (h : sep ∉ a) :
    Split (a ++ sep :: b) sep = a :: Split b sep := by
  induction a with
  | nil => simp [Split]
  | cons c cs ih =>
    have hc : c ≠ sep := fun e => h (by simp [e])
    have hcs : sep ∉ cs := fun e => h (by simp [e])
    show Split (c :: (cs ++ sep :: b)) sep = _
    rw [Split, if_neg hc, ih hcs]

theorem length_Split_lt_two_iff (s : Str) (sep : Char) :
    (Split s sep).length < 2 ↔ sep ∉ s := by
  rw [length_Split, ← List.count_eq_zero]
  omega

theorem Join_cons_cons (w v : Str) (ws : List Str) (sep : Str) :
    Join (w :: v :: ws) sep = w ++ sep ++ Join (v :: ws) sep := rfl

theorem Join_Split (s : Str) (sep : Char) : Join (Split s sep) [sep] = s := by
  induction s with
  | nil => simp [Split, Join]
  | cons c cs ih =>
    unfold Split
    by_cases h : c = sep
    · subst h
      rw [if_pos rfl]
      cases hs : Split cs c with
      | nil => exact absurd hs (Split_ne_nil cs c)
      | cons w ws =>
        rw [hs] at ih
        rw [Join_cons_cons, ih]
        rfl
    · rw [if_neg h]
      cases hs : Split cs sep with
      | nil => exact absurd hs (Split_ne_nil cs sep)
      | cons w ws =>
        rw [hs] at ih
        cases ws with
        | nil =>
          simp only [Join] at ih ⊢
          rw [ih]
        | cons v vs =>
          rw [Join_cons_cons] at ih ⊢
          rw [← ih]
          simp

theorem Split_Join (ls : List Str) (sep : Char) (hne : ls ≠ [])
    (h : ∀ l ∈ ls, sep ∉ l) : Split (Join ls [sep]) sep = ls := by
  induction ls with
  | nil => exact absurd rfl hne
  | cons w ws ih =>
    cases ws with
    | nil =>
      simp only [Join]
      exact Split_of_not_mem w sep (h w (by simp))
    | cons v vs =>
      rw [Join_cons_cons]
      have hw : sep ∉ w := h w (by simp)
      have := ih (by simp) (fun l hl => h l (List.mem_cons_of_mem _ hl))
      rw [List.append_assoc, List.singleton_append, Split_append_sep _ _ _ hw, this]

/-! ## The two loops, characterised -/

theorem parseFieldsLoop_step (field : Str) (rest : List Str) (acc : List FieldMap)
    (h : ':' ∈ field) :
    parseFieldsLoop (field :: rest) acc = parseFieldsLoop rest (acc ++ [fieldOfToken field]) := by
  have hlen : ¬ (Split field ':').length < 2 := by
    rw [length_Split_lt_two_iff]; exact not_not.mpr h
  rw [parseFieldsLoop]
  simp only [hlen, if_false]
  unfold fieldOfToken
  rcases hs : Split field ':' with _ | ⟨p0, _ | ⟨p1, _ | ⟨p2, ps⟩⟩⟩
  · rw [hs] at hlen; simp at hlen
  · rw [hs] at hlen; simp at hlen
  · simp
  · simp

theorem parseFieldsLoop_stop (field : Str) (rest : List Str) (acc : List FieldMap)
    (h : ':' ∉ field) :
    parseFieldsLoop (field :: rest) acc = some ([], some (fieldFormatError field)) := by
  have hlen : (Split field ':').length < 2 := (length_Split_lt_two_iff _ _).mpr h
  rw [parseFieldsLoop]
  simp only [hlen, if_true]

/-- The loop of `ParseFieldDefinitions` stops at the first token without a
colon, and otherwise appends one record per token. -/
theorem parseFieldsLoop_eq (toks : List Str) (acc : List FieldMap) :
    parseFieldsLoop toks acc =
      match toks.find? (fun t => decide (':' ∉ t)) with
      | some t => some ([], some (fieldFormatError t))
      | none => some (acc ++ toks.map fieldOfToken, none) := by
  induction toks generalizing acc with
  | nil => simp [parseFieldsLoop]
  | cons t ts ih =>
    by_cases h : ':' ∈ t
    · rw [parseFieldsLoop_step t ts acc h, ih, List.find?_cons_of_neg _ (by simpa using h)]
      simp
    · rw [parseFieldsLoop_stop t ts acc h, List.find?_cons_of_pos _ (by simpa using h)]

theorem parseFields_of_ne_nil (fields : Str) (h : fields ≠ []) :
    ParseFieldDefinitions fields =
      match (Split fields ' ').find? (fun t => decide (':' ∉ t)) with
      | some t => some ([], some (fieldFormatError t))
      | none => some ((Split fields ' ').map fieldOfToken, none) := by
  rw [ParseFieldDefinitions, if_neg h]
  simp only [parseFieldsLoop_eq, List.nil_append]

theorem fieldFormatError_contains (p : Str) : p <:+: fieldFormatError p :=
  ⟨_, _, rfl⟩

/-! ## Well-formed field tokens -/

theorem FieldToken.Split_render (t : FieldToken) (h : t.WellFormed) :
    Split t.render ':' =
      match t.modifier with
      | none => [t.name, t.type]
      | some m => [t.name, t.type, m] := by
  obtain ⟨hn, ht, hm⟩ := h
  unfold FieldToken.render
  cases hmod : t.modifier with
  | none =>
    simp only
    rw [Split_append_sep _ _ _ hn.2, Split_of_not_mem _ _ ht.2]
  | some m =>
    rw [hmod] at hm
    simp only
    rw [Split_append_sep _ _ _ hn.2, Split_append_sep _ _ _ ht.2, Split_of_not_mem _ _ hm.2]

theorem FieldToken.colon_mem_render (t : FieldToken) : ':' ∈ t.render := by
  unfold FieldToken.render
  cases t.modifier <;> simp

theorem FieldToken.space_not_mem_render (t : FieldToken) (h : t.WellFormed) :
    ' ' ∉ t.render := by
  obtain ⟨hn, ht, hm⟩ := h
  unfold FieldToken.render
  cases hmod : t.modifier with
  | none => simp [hn.1, ht.1]
  | some m =>
    rw [hmod] at hm
    simp [hn.1, ht.1, hm.1]

theorem FieldToken.fieldOfToken_render (t : FieldToken) (h : t.WellFormed) :
    fieldOfToken t.render =
      { name := t.name, type := t.type, columnName := ToColumnName t.name,
        nullable := if t.modifier = some "nullable".toList then "true".toList
          else "false".toList } := by
  unfold fieldOfToken
  rw [FieldToken.Split_render t h]
  cases t.modifier <;> simp

theorem Join_ne_nil_of_mem (ls : List Str) (sep c : Char) (hne : ls ≠ [])
    (h : ∀ l ∈ ls, c ∈ l) : Join ls [sep] ≠ [] := by
  match ls, hne, h with
  | [w], _, h =>
    have := h w (by simp)
    simp only [Join]
    exact List.ne_nil_of_mem this
  | w :: v :: ws, _, h =>
    have := h w (by simp)
    rw [Join_cons_cons]
    simp [List.ne_nil_of_mem this]

/-- The input made of well-formed tokens joined by single spaces is not empty,
splits back into the tokens, and every piece has a colon. -/
theorem FieldToken.spec_facts (toks : List FieldToken) (hne : toks ≠ [])
    (hwf : ∀ t ∈ toks, t.WellFormed) :
    Join (toks.map FieldToken.render) " ".toList ≠ [] ∧
      Split (Join (toks.map FieldToken.render) " ".toList) ' ' = toks.map FieldToken.render ∧
      (toks.map FieldToken.render).find? (fun t => decide (':' ∉ t)) = none := by
  have hne2 : toks.map FieldToken.render ≠ [] := by simpa using hne
  refine ⟨?_, ?_, ?_⟩
  · apply Join_ne_nil_of_mem _ ' ' ':' hne2
    intro l hl
    obtain ⟨t, _, rfl⟩ := List.mem_map.mp hl
    exact t.colon_mem_render
  · apply Split_Join _ ' ' hne2
    intro l hl
    obtain ⟨t, ht, rfl⟩ := List.mem_map.mp hl
    exact t.space_not_mem_render (hwf t ht)
  · rw [List.find?_eq_none]
    intro l hl
    obtain ⟨t, _, rfl⟩ := List.mem_map.mp hl
    simpa using t.colon_mem_render

/-- On well-formed tokens joined by single spaces the parser returns the
records of the tokens, in order, and no error. -/
theorem parseFields_wellFormed (toks : List FieldToken) (hne : toks ≠ [])
    (hwf : ∀ t ∈ toks, t.WellFormed) :
    ParseFieldDefinitions (Join (toks.map FieldToken.render) " ".toList) =
      some (toks.map (fun t =>
        { name := t.name, type := t.type, columnName := ToColumnName t.name,
          nullable := if t.modifier = some "nullable".toList then "true".toList
            else "false".toList }), none) := by
  obtain ⟨h1, h2, h3⟩ := FieldToken.spec_facts toks hne hwf
  rw [parseFields_of_ne_nil _ h1, h2, h3]
  simp only [List.map_map, Option.some.injEq, Prod.mk.injEq, and_true]
  apply List.map_congr_left
  intro t ht
  exact t.fieldOfToken_render (hwf t ht)

/-! ## Stray spaces, and the round trip -/

theorem Split_append_sep_any (a b : Str) (sep : Char) :
    Split (a ++ sep :: b) sep = Split a sep ++ Split b sep := by
  induction a with
  | nil => simp [Split]
  | cons c cs ih =>
    show Split (c :: (cs ++ sep :: b)) sep = Split (c :: cs) sep ++ _
    by_cases h : c = sep
    · rw [Split, if_pos h, ih, Split, if_pos h]
      rfl
    · rw [Split, if_neg h, ih, Split, if_neg h]
      cases hs : Split cs sep with
      | nil => exact absurd hs (Split_ne_nil cs sep)
      | cons w ws => rfl

/-- An input with a piece that has no colon is rejected, with no records. -/
theorem parseFields_error_of_mem (fields : Str) (hne : fields ≠ []) (p : Str)
    (hp : p ∈ Split fields ' ') (hcol : ':' ∉ p) :
    ∃ msg, ParseFieldDefinitions fields = some ([], some msg) := by
  rw [parseFields_of_ne_nil fields hne]
  cases hf : (Split fields ' ').find? (fun t => decide (':' ∉ t)) with
  | none =>
    have := List.find?_eq_none.mp hf p hp
    simp at this
    exact absurd this hcol
  | some q => exact ⟨_, rfl⟩

/-- An input without a colon-free piece is accepted: one record per piece. -/
theorem parseFields_ok_of_forall (fields : Str) (hne : fields ≠ [])
    (h : ∀ p ∈ Split fields ' ', ':' ∈ p) :
    ParseFieldDefinitions fields = some ((Split fields ' ').map fieldOfToken, none) := by
  have hf : (Split fields ' ').find? (fun t => decide (':' ∉ t)) = none := by
    rw [List.find?_eq_none]
    intro t ht
    simpa using h t ht
  rw [parseFields_of_ne_nil fields hne, hf]

theorem renderField_fieldOfToken (tok : Str)
    (h : (Split tok ':').length = 2 ∨ (Split tok ':').length = 3) :
    renderField (fieldOfToken tok) = dropUnknownModifier tok := by
  have hj := Join_Split tok ':'
  unfold renderField fieldOfToken dropUnknownModifier
  rcases hs : Split tok ':' with _ | ⟨a, _ | ⟨b, _ | ⟨c, _ | ⟨d, ds⟩⟩⟩⟩
  · rw [hs] at h; simp at h
  · rw [hs] at h; simp at h
  · rw [hs] at hj
    simp only [Join] at hj
    have hft : ¬ "false".toList = "true".toList := by decide
    simp [hft, ← hj]
  · rw [hs] at hj
    simp only [Join] at hj
    by_cases hc : c = "nullable".toList
    · subst hc
      simp [← hj]
    · have hft : ¬ "false".toList = "true".toList := by decide
      simp only [List.getD_cons_zero, List.getD_cons_succ, List.getElem?_cons_zero,
        List.getElem?_cons_succ, Option.some.injEq, if_neg hc, if_neg hft]
  · rw [hs] at h; simp at h

theorem dropUnknownModifier_eq_self (tok : Str)
    (h : ∀ m, (Split tok ':')[2]? = some m → m = "nullable".toList) :
    dropUnknownModifier tok = tok := by
  unfold dropUnknownModifier
  rcases hs : Split tok ':' with _ | ⟨a, _ | ⟨b, _ | ⟨c, _ | ⟨d, ds⟩⟩⟩⟩ <;> try rfl
  have := h c (by rw [hs]; rfl)
  simp [this]

/-! ## The loop of `ParseRelationships` -/

theorem parseRelationsLoop_format (relation : Str) (rest : List Str) (acc : List RelationMap)
    (h : (Split relation ':').length ≠ 3) :
    parseRelationsLoop (relation :: rest) acc =
      some ([], some (relationFormatError relation)) := by
  rw [parseRelationsLoop]
  simp only [h, ne_eq, not_false_eq_true, if_true]

theorem parseRelationsLoop_type (relation : Str) (rest : List Str) (acc : List RelationMap)
    (h : (Split relation ':').length = 3)
    (hv : validTypes ((Split relation ':').getD 0 []) = false) :
    parseRelationsLoop (relation :: rest) acc =
      some ([], some (relationTypeError ((Split relation ':').getD 0 []))) := by
  rw [parseRelationsLoop]
  rcases hs : Split relation ':' with _ | ⟨a, _ | ⟨b, _ | ⟨c, _ | ⟨d, ds⟩⟩⟩⟩ <;>
    rw [hs] at h <;> simp at h
  rw [hs] at hv
  simp at hv
  simp [hv]

theorem parseRelationsLoop_step (relation : Str) (rest : List Str) (acc : List RelationMap)
    (h : (Split relation ':').length = 3)
    (hv : validTypes ((Split relation ':').getD 0 []) = true) :
    parseRelationsLoop (relation :: rest) acc =
      parseRelationsLoop rest (acc ++ [relationOfToken relation]) := by
  rw [parseRelationsLoop]
  unfold relationOfToken
  rcases hs : Split relation ':' with _ | ⟨a, _ | ⟨b, _ | ⟨c, _ | ⟨d, ds⟩⟩⟩⟩ <;>
    rw [hs] at h <;> simp at h
  rw [hs] at hv
  simp at hv
  simp [hv]

/-- The loop runs through a prefix of accepted tokens, adding one record for
each. -/
theorem parseRelationsLoop_append (pre rest : List Str) (acc : List RelationMap)
    (hpre : ∀ t ∈ pre, (Split t ':').length = 3 ∧
      validTypes ((Split t ':').getD 0 []) = true) :
    parseRelationsLoop (pre ++ rest) acc =
      parseRelationsLoop rest (acc ++ pre.map relationOfToken) := by
  induction pre generalizing acc with
  | nil => simp
  | cons t ts ih =>
    have ht := hpre t (by simp)
    rw [List.cons_append, parseRelationsLoop_step t _ acc ht.1 ht.2,
      ih _ (fun u hu => hpre u (List.mem_cons_of_mem _ hu))]
    simp

/-- The loop fails, with no records, as soon as a token without three parts
comes after tokens that all have three parts. -/
theorem parseRelationsLoop_error (pre post : List Str) (tok : Str) (acc : List RelationMap)
    (hpre : ∀ t ∈ pre, (Split t ':').length = 3) (htok : (Split tok ':').length ≠ 3) :
    ∃ msg, parseRelationsLoop (pre ++ tok :: post) acc = some ([], some msg) := by
  induction pre generalizing acc with
  | nil => exact ⟨_, parseRelationsLoop_format tok post acc htok⟩
  | cons t ts ih =>
    have h3 := hpre t (by simp)
    cases hv : validTypes ((Split t ':').getD 0 [])
    · exact ⟨_, parseRelationsLoop_type t _ acc h3 hv⟩
    · rw [List.cons_append, parseRelationsLoop_step t _ acc h3 hv]
      exact ih _ (fun u hu => hpre u (List.mem_cons_of_mem _ hu))

theorem parseRelations_of_ne_nil (relations : Str) (h : relations ≠ []) :
    ParseRelationships relations = parseRelationsLoop (Split relations ' ') [] := by
  rw [ParseRelationships, if_neg h]

theorem relationFormatError_contains (p : Str) : p <:+: relationFormatError p :=
  ⟨_, _, rfl⟩

/-! ## Well-formed relationship tokens -/

theorem RelationToken.kind_clean (t : RelationToken) (h : t.WellFormed) :
    CleanPart t.kind ∧ validTypes t.kind = true := by
  obtain ⟨hk, _, _⟩ := h
  rcases hk with hk | hk | hk | hk <;> rw [hk] <;> decide

theorem RelationToken.split_relation (t : RelationToken) (h : t.WellFormed) :
    Split t.render ':' = [t.kind, t.field, t.entity] := by
  have hk := (t.kind_clean h).1
  obtain ⟨_, hf, he⟩ := h
  unfold RelationToken.render
  rw [Split_append_sep _ _ _ hk.2, Split_append_sep _ _ _ hf.2, Split_of_not_mem _ _ he.2]

theorem RelationToken.colon_mem_relation (t : RelationToken) : ':' ∈ t.render := by
  simp [RelationToken.render]

theorem RelationToken.space_not_mem_relation (t : RelationToken) (h : t.WellFormed) :
    ' ' ∉ t.render := by
  have hk := (t.kind_clean h).1
  obtain ⟨_, hf, he⟩ := h
  simp [RelationToken.render, hk.1, hf.1, he.1]

/-! ## The field parser -/

/-- C1: `ParseFieldDefinitions` returns an error exactly when the input is not
empty and some piece of its split on single spaces has no colon; the error
message is then the invalid-field-format message of the first such piece (so it
contains that piece) and the returned slice of records is empty. -/
theorem ParseFieldDefinitions_error_iff (fields : Str) :
    ((∃ recs msg, ParseFieldDefinitions fields = some (recs, some msg)) ↔
        (fields ≠ [] ∧ ∃ p ∈ Split fields ' ', ':' ∉ p)) ∧
      (∀ recs msg, ParseFieldDefinitions fields = some (recs, some msg) →
        recs = [] ∧
          ∃ p, (Split fields ' ').find? (fun t => decide (':' ∉ t)) = some p ∧
            msg = fieldFormatError p ∧ p <:+: msg) := by
  by_cases hne : fields = []
  · subst hne
    simp [ParseFieldDefinitions]
  · rw [parseFields_of_ne_nil fields hne]
    cases hf : (Split fields ' ').find? (fun t => decide (':' ∉ t)) with
    | none =>
      have hall : ∀ p ∈ Split fields ' ', ':' ∈ p := by
        intro p hp
        have := List.find?_eq_none.mp hf p hp
        simpa using this
      constructor
      · constructor
        · rintro ⟨recs, msg, h⟩
          simp at h
        · rintro ⟨_, p, hp, hcol⟩
          exact absurd (hall p hp) hcol
      · intro recs msg h
        simp at h
    | some p =>
      have hmem : p ∈ Split fields ' ' := List.mem_of_find?_eq_some hf
      have hcol : ':' ∉ p := by
        have := List.find?_some hf
        simpa using this
      constructor
      · constructor
        · intro _
          exact ⟨hne, p, hmem, hcol⟩
        · intro _
          exact ⟨[], fieldFormatError p, rfl⟩
      · intro recs msg h
        simp only [Option.some.injEq, Prod.mk.injEq] at h
        obtain ⟨h1, h2⟩ := h
        subst h1 h2
        exact ⟨rfl, p, rfl, rfl, fieldFormatError_contains p⟩

/-- A run of `ParseFieldDefinitions` that ends in the error: on
`"a:b bad c"` the pieces `bad` and `c` have no colon, and the message names
`bad`, the first of them. -/
theorem ParseFieldDefinitions_error_iff_witness :
    ([] : List FieldMap) = [] ∧
      ∃ p, (Split "a:b bad c".toList ' ').find? (fun t => decide (':' ∉ t)) = some p ∧
        fieldFormatError "bad".toList = fieldFormatError p ∧
          p <:+: fieldFormatError "bad".toList :=
  (ParseFieldDefinitions_error_iff "a:b bad c".toList).2 [] (fieldFormatError "bad".toList)
    (by decide)

/-- C2: on `n ≥ 1` tokens `name:type` or `name:type:modifier` (parts without
space or colon) joined by single spaces, `ParseFieldDefinitions` returns no
error and exactly `n` records, in token order, whose names and types are the
first and second parts of the tokens, unchanged. -/
theorem ParseFieldDefinitions_wellFormed_tokens (toks : List FieldToken) (hne : toks ≠ [])
    (hwf : ∀ t ∈ toks, t.WellFormed) :
    ∃ recs, ParseFieldDefinitions (Join (toks.map FieldToken.render) " ".toList) =
        some (recs, none) ∧
      recs.length = toks.length ∧
      recs.map (fun r => (r.name, r.type)) = toks.map (fun t => (t.name, t.type)) := by
  refine ⟨_, parseFields_wellFormed toks hne hwf, ?_, ?_⟩
  · simp
  · simp [List.map_map, Function.comp_def]

/-- Two tokens, the second with a modifier, parsed in order. -/
theorem ParseFieldDefinitions_wellFormed_tokens_witness :
    ∃ recs, ParseFieldDefinitions "title:String content:Text:nullable".toList =
        some (recs, none) ∧
      recs.length = 2 ∧
      recs.map (fun r => (r.name, r.type)) =
        [("title".toList, "String".toList), ("content".toList, "Text".toList)] :=
  ParseFieldDefinitions_wellFormed_tokens
    [⟨"title".toList, "String".toList, none⟩,
      ⟨"content".toList, "Text".toList, some "nullable".toList⟩]
    (by decide) (by decide)

/-- C3: when every token of a non-empty input is accepted (has a colon), no
error is raised and, token by token, the record's `nullable` is `"true"` exactly
when the token has a third colon-separated part equal to `nullable`; with no
third part or any other third part it is `"false"`. -/
theorem ParseFieldDefinitions_nullable (fields : Str) (hne : fields ≠ [])
    (hacc : ∀ tok ∈ Split fields ' ', ':' ∈ tok) :
    ∃ recs, ParseFieldDefinitions fields = some (recs, none) ∧
      List.Forall₂
        (fun r tok =>
          (r.nullable = "true".toList ↔ (Split tok ':')[2]? = some "nullable".toList) ∧
            ((Split tok ':')[2]? ≠ some "nullable".toList → r.nullable = "false".toList))
        recs (Split fields ' ') := by
  have hf : (Split fields ' ').find? (fun t => decide (':' ∉ t)) = none := by
    rw [List.find?_eq_none]
    intro t ht
    simpa using hacc t ht
  rw [parseFields_of_ne_nil fields hne, hf]
  refine ⟨_, rfl, ?_⟩
  rw [List.forall₂_map_left_iff, List.forall₂_same]
  intro tok _
  unfold fieldOfToken
  by_cases h3 : (Split tok ':')[2]? = some "nullable".toList
  · simp [h3]
  · simp only [h3, if_false, not_false_eq_true, forall_true_left, and_true, iff_false]
    exact ⟨by decide, fun _ => trivial⟩

/-- Three accepted tokens: a plain one, one with the modifier `nullable`, one
with another modifier. -/
theorem ParseFieldDefinitions_nullable_witness :
    ∃ recs, ParseFieldDefinitions "a:Int b:Int:nullable c:Int:unique".toList =
        some (recs, none) ∧
      List.Forall₂
        (fun r tok =>
          (r.nullable = "true".toList ↔ (Split tok ':')[2]? = some "nullable".toList) ∧
            ((Split tok ':')[2]? ≠ some "nullable".toList → r.nullable = "false".toList))
        recs (Split "a:Int b:Int:nullable c:Int:unique".toList ' ') :=
  ParseFieldDefinitions_nullable "a:Int b:Int:nullable c:Int:unique".toList
    (by decide) (by decide)

/-- C4: in every record returned by `ParseFieldDefinitions` the column name is
`ToColumnName` of the record's name, so two records with the same name have the
same column name whatever the rest of the input is; `firstName:String` gives
the column `first_name` and `email:String:nullable` the column `email`. -/
theorem ParseFieldDefinitions_columnName :
    (∀ fields recs err, ParseFieldDefinitions fields = some (recs, err) →
        ∀ r ∈ recs, r.columnName = ToColumnName r.name) ∧
      (∀ fields₁ fields₂ recs₁ recs₂ err₁ err₂,
        ParseFieldDefinitions fields₁ = some (recs₁, err₁) →
        ParseFieldDefinitions fields₂ = some (recs₂, err₂) →
        ∀ r₁ ∈ recs₁, ∀ r₂ ∈ recs₂, r₁.name = r₂.name → r₁.columnName = r₂.columnName) ∧
      ParseFieldDefinitions "firstName:String".toList =
        some ([{ name := "firstName".toList, type := "String".toList,
                 columnName := "first_name".toList, nullable := "false".toList }], none) ∧
      ParseFieldDefinitions "email:String:nullable".toList =
        some ([{ name := "email".toList, type := "String".toList,
                 columnName := "email".toList, nullable := "true".toList }], none) := by
  have key : ∀ fields recs err, ParseFieldDefinitions fields = some (recs, err) →
      ∀ r ∈ recs, r.columnName = ToColumnName r.name := by
    intro fields recs err h r hr
    by_cases hne : fields = []
    · subst hne
      simp [ParseFieldDefinitions] at h
      rw [h.1] at hr
      simp at hr
    · rw [parseFields_of_ne_nil fields hne] at h
      cases hf : (Split fields ' ').find? (fun t => decide (':' ∉ t)) with
      | some p =>
        rw [hf] at h
        simp only [Option.some.injEq, Prod.mk.injEq] at h
        rw [← h.1] at hr
        simp at hr
      | none =>
        rw [hf] at h
        simp only [Option.some.injEq, Prod.mk.injEq] at h
        rw [← h.1] at hr
        obtain ⟨tok, _, rfl⟩ := List.mem_map.mp hr
        rfl
  refine ⟨key, ?_, by decide, by decide⟩
  intro f₁ f₂ recs₁ recs₂ e₁ e₂ h₁ h₂ r₁ hr₁ r₂ hr₂ hname
  rw [key f₁ recs₁ e₁ h₁ r₁ hr₁, key f₂ recs₂ e₂ h₂ r₂ hr₂, hname]

/-- The column name of the second record of `"firstName:String userId:Long"`. -/
theorem ParseFieldDefinitions_columnName_witness :
    ({ name := "userId".toList, type := "Long".toList,
       columnName := "user_id".toList, nullable := "false".toList } : FieldMap).columnName =
      ToColumnName "userId".toList :=
  ParseFieldDefinitions_columnName.1 "firstName:String userId:Long".toList
    [{ name := "firstName".toList, type := "String".toList,
       columnName := "first_name".toList, nullable := "false".toList },
     { name := "userId".toList, type := "Long".toList,
       columnName := "user_id".toList, nullable := "false".toList }]
    none (by decide) _ (by decide)

/-- C5 (the code at the failing input): the token `a:b:nullable:extra` splits
on `:` into four parts, and `ParseFieldDefinitions` does not reject it: it
returns one record and a `nil` error, the fourth part being ignored. -/
theorem ParseFieldDefinitions_accepts_four_parts :
    (Split "a:b:nullable:extra".toList ':').length = 4 ∧
      ParseFieldDefinitions "a:b:nullable:extra".toList =
        some ([{ name := "a".toList, type := "b".toList,
                 columnName := "a".toList, nullable := "true".toList }], none) := by
  decide

/-- C6 (counterexample): the tokens `a:b` and `c:d` joined by one space parse to
two records, but joined by two spaces, or preceded by a space, they are
rejected, and joined by a tab they parse to a single record whose type is
`b<TAB>c`. -/
theorem ParseFieldDefinitions_whitespace_counterexample :
    ParseFieldDefinitions "a:b c:d".toList =
        some ([{ name := "a".toList, type := "b".toList, columnName := "a".toList,
                 nullable := "false".toList },
               { name := "c".toList, type := "d".toList, columnName := "c".toList,
                 nullable := "false".toList }], none) ∧
      ParseFieldDefinitions "a:b  c:d".toList = some ([], some (fieldFormatError [])) ∧
      ParseFieldDefinitions " a:b c:d".toList = some ([], some (fieldFormatError [])) ∧
      ParseFieldDefinitions "a:b\tc:d".toList =
        some ([{ name := "a".toList, type := "b\tc".toList, columnName := "a".toList,
                 nullable := "false".toList }], none) ∧
      ParseFieldDefinitions "a:b  c:d".toList ≠ ParseFieldDefinitions "a:b c:d".toList := by
  decide

/-- C6 (amended): `ParseFieldDefinitions` cuts its input at single space
characters only. Well-formed tokens joined by single spaces give one record per
token, in order; an input with two adjacent spaces, a leading space or a
trailing space is rejected with an error and no records; and an input without
any space character is one token, whatever other white space it holds. -/
theorem ParseFieldDefinitions_single_space_only :
    (∀ toks : List FieldToken, toks ≠ [] → (∀ t ∈ toks, t.WellFormed) →
        ParseFieldDefinitions (Join (toks.map FieldToken.render) " ".toList) =
          some (toks.map (fun t => fieldOfToken t.render), none)) ∧
      (∀ a b : Str, ∃ msg,
        ParseFieldDefinitions (a ++ "  ".toList ++ b) = some ([], some msg)) ∧
      (∀ a : Str, ∃ msg, ParseFieldDefinitions (" ".toList ++ a) = some ([], some msg)) ∧
      (∀ a : Str, ∃ msg, ParseFieldDefinitions (a ++ " ".toList) = some ([], some msg)) ∧
      (∀ fields : Str, ' ' ∉ fields →
        ∃ recs err, ParseFieldDefinitions fields = some (recs, err) ∧ recs.length ≤ 1) := by
  refine ⟨?_, ?_, ?_, ?_, ?_⟩
  · intro toks hne hwf
    obtain ⟨h1, h2, h3⟩ := FieldToken.spec_facts toks hne hwf
    rw [parseFields_of_ne_nil _ h1, h2, h3]
    simp [List.map_map, Function.comp_def]
  · intro a b
    have e : a ++ "  ".toList ++ b = a ++ ' ' :: (' ' :: b) := by simp
    rw [e]
    refine parseFields_error_of_mem _ (by simp) [] ?_ (by simp)
    rw [Split_append_sep_any]
    simp [Split]
  · intro a
    refine parseFields_error_of_mem _ (by simp) [] ?_ (by simp)
    show [] ∈ Split (' ' :: a) ' '
    simp [Split]
  · intro a
    have e : a ++ " ".toList = a ++ ' ' :: [] := rfl
    rw [e]
    refine parseFields_error_of_mem _ (by simp) [] ?_ (by simp)
    rw [Split_append_sep_any]
    simp [Split]
  · intro fields hsp
    by_cases hne : fields = []
    · subst hne
      exact ⟨[], none, rfl, by simp⟩
    · rw [parseFields_of_ne_nil fields hne, Split_of_not_mem fields ' ' hsp]
      by_cases hcol : ':' ∈ fields
      · exact ⟨[fieldOfToken fields], none, by simp [hcol], by simp⟩
      · exact ⟨[], some (fieldFormatError fields), by simp [hcol], by simp⟩

/-- The amended statement at work: `x:Int y:Int` gives two records, and
`x:Int  y:Int`, with two spaces, is rejected. -/
theorem ParseFieldDefinitions_single_space_only_witness :
    ParseFieldDefinitions "x:Int y:Int".toList =
        some ([fieldOfToken "x:Int".toList, fieldOfToken "y:Int".toList], none) ∧
      ∃ msg, ParseFieldDefinitions "x:Int  y:Int".toList = some ([], some msg) :=
  ⟨ParseFieldDefinitions_single_space_only.1
      [⟨"x".toList, "Int".toList, none⟩, ⟨"y".toList, "Int".toList, none⟩]
      (by decide) (by decide),
    ParseFieldDefinitions_single_space_only.2.1 "x:Int".toList "y:Int".toList⟩

/-- C7: round trip. When every token of the input has two or three
colon-separated parts, the parser succeeds, and writing each record back as
`name:type` (with `:nullable` when its `nullable` is `"true"`) and joining with
single spaces gives the input with every third part other than `nullable`
dropped; when every third part is `nullable` it gives the input itself. -/
theorem ParseFieldDefinitions_roundtrip (fields : Str)
    (hshape : ∀ tok ∈ Split fields ' ',
      (Split tok ':').length = 2 ∨ (Split tok ':').length = 3) :
    ∃ recs, ParseFieldDefinitions fields = some (recs, none) ∧
      Join (recs.map renderField) " ".toList =
        Join ((Split fields ' ').map dropUnknownModifier) " ".toList ∧
      ((∀ tok ∈ Split fields ' ', ∀ m, (Split tok ':')[2]? = some m → m = "nullable".toList) →
        Join (recs.map renderField) " ".toList = fields) := by
  have hne : fields ≠ [] := by
    rintro rfl
    have := hshape [] (by simp [Split])
    simp [Split] at this
  have hcol : ∀ p ∈ Split fields ' ', ':' ∈ p := by
    intro p hp
    by_contra hc
    have := (length_Split_lt_two_iff p ':').mpr hc
    rcases hshape p hp with h | h <;> omega
  have hmap : ((Split fields ' ').map fieldOfToken).map renderField =
      (Split fields ' ').map dropUnknownModifier := by
    rw [List.map_map]
    apply List.map_congr_left
    intro tok htok
    exact renderField_fieldOfToken tok (hshape tok htok)
  refine ⟨_, parseFields_ok_of_forall fields hne hcol, by rw [hmap], ?_⟩
  intro hall
  rw [hmap]
  have hid : (Split fields ' ').map dropUnknownModifier = Split fields ' ' := by
    conv_rhs => rw [← List.map_id (Split fields ' ')]
    apply List.map_congr_left
    intro tok htok
    exact dropUnknownModifier_eq_self tok (hall tok htok)
  rw [hid]
  exact Join_Split fields ' '

/-- The round trip on `"id:Long name:String:nullable age:Int:unique"`: the
modifier `unique` is dropped, everything else comes back. -/
theorem ParseFieldDefinitions_roundtrip_witness :
    ∃ recs, ParseFieldDefinitions "id:Long name:String:nullable age:Int:unique".toList =
        some (recs, none) ∧
      Join (recs.map renderField) " ".toList =
        Join ((Split "id:Long name:String:nullable age:Int:unique".toList ' ').map
          dropUnknownModifier) " ".toList ∧
      ((∀ tok ∈ Split "id:Long name:String:nullable age:Int:unique".toList ' ',
          ∀ m, (Split tok ':')[2]? = some m → m = "nullable".toList) →
        Join (recs.map renderField) " ".toList =
          "id:Long name:String:nullable age:Int:unique".toList) :=
  ParseFieldDefinitions_roundtrip "id:Long name:String:nullable age:Int:unique".toList
    (by decide)

/-- C8: on the empty string both parsers return an empty sequence and a `nil`
error. -/
theorem Parse_empty :
    ParseFieldDefinitions "".toList = some ([], none) ∧
      ParseRelationships "".toList = some ([], none) := by
  decide

/-! ## The relationship parser -/

/-- C9: on `n ≥ 1` tokens `kind:field:entity` joined by single spaces, with the
kind one of `oneToOne`, `oneToMany`, `manyToOne`, `manyToMany` and the field and
entity free of spaces and colons, `ParseRelationships` returns no error and
exactly `n` records, the record of each token in token order with the three
parts unchanged; equal tokens give equal records, each kept, and nothing is
asked of the entity. -/
theorem ParseRelationships_wellFormed_tokens (toks : List RelationToken) (hne : toks ≠ [])
    (hwf : ∀ t ∈ toks, t.WellFormed) :
    ∃ recs, ParseRelationships (Join (toks.map RelationToken.render) " ".toList) =
        some (recs, none) ∧
      recs.length = toks.length ∧
      recs = toks.map (fun t => { type := t.kind, field := t.field, entity := t.entity }) := by
  have hne2 : toks.map RelationToken.render ≠ [] := by simpa using hne
  have h1 : Join (toks.map RelationToken.render) " ".toList ≠ [] := by
    apply Join_ne_nil_of_mem _ ' ' ':' hne2
    intro l hl
    obtain ⟨t, _, rfl⟩ := List.mem_map.mp hl
    exact t.colon_mem_relation
  have h2 : Split (Join (toks.map RelationToken.render) " ".toList) ' ' =
      toks.map RelationToken.render := by
    apply Split_Join _ ' ' hne2
    intro l hl
    obtain ⟨t, ht, rfl⟩ := List.mem_map.mp hl
    exact t.space_not_mem_relation (hwf t ht)
  have h3 : ∀ l ∈ toks.map RelationToken.render, (Split l ':').length = 3 ∧
      validTypes ((Split l ':').getD 0 []) = true := by
    intro l hl
    obtain ⟨t, ht, rfl⟩ := List.mem_map.mp hl
    rw [t.split_relation (hwf t ht)]
    exact ⟨rfl, (t.kind_clean (hwf t ht)).2⟩
  have h4 := parseRelationsLoop_append (toks.map RelationToken.render) [] [] h3
  rw [List.append_nil] at h4
  refine ⟨_, ?_, ?_, rfl⟩
  · rw [parseRelations_of_ne_nil _ h1, h2, h4, parseRelationsLoop]
    simp only [List.nil_append, List.map_map, Option.some.injEq, Prod.mk.injEq, and_true]
    apply List.map_congr_left
    intro t ht
    simp only [Function.comp_apply, relationOfToken]
    rw [t.split_relation (hwf t ht)]
    rfl
  · simp

/-- The same token twice gives the same record twice. -/
theorem ParseRelationships_wellFormed_tokens_witness :
    ∃ recs, ParseRelationships "manyToOne:author:User manyToOne:author:User".toList =
        some (recs, none) ∧
      recs.length = 2 ∧
      recs = [{ type := "manyToOne".toList, field := "author".toList, entity := "User".toList },
              { type := "manyToOne".toList, field := "author".toList,
                entity := "User".toList }] :=
  ParseRelationships_wellFormed_tokens
    [⟨"manyToOne".toList, "author".toList, "User".toList⟩,
      ⟨"manyToOne".toList, "author".toList, "User".toList⟩]
    (by decide) (by decide)

/-- C10 (counterexample): in `"x:a:B bad"` the token `bad` does not have three
parts, yet the error returned is the invalid-type error of the earlier token
`x:a:B`, whose message does not contain `bad`. -/
theorem ParseRelationships_malformed_counterexample :
    "bad".toList ∈ Split "x:a:B bad".toList ' ' ∧
      (Split "bad".toList ':').length ≠ 3 ∧
      ParseRelationships "x:a:B bad".toList =
        some ([], some (relationTypeError "x".toList)) ∧
      ¬ ("bad".toList <:+: relationTypeError "x".toList) := by
  refine ⟨by decide, by decide, by decide, ?_⟩
  intro h
  have hb : 'b' ∈ relationTypeError "x".toList := h.subset (by decide)
  revert hb
  decide

/-- C10 (amended): when some token of a non-empty input does not split on `:`
into exactly three parts, `ParseRelationships` returns an error and no records.
With `tok` the first such token: if every token before it has a known kind the
error is the invalid-format error, whose message contains `tok`; otherwise it
is the invalid-type error of the first earlier token with an unknown kind. -/
theorem ParseRelationships_malformed (relations : Str) (hne : relations ≠ [])
    (pre post : List Str) (tok : Str)
    (hsplit : Split relations ' ' = pre ++ tok :: post)
    (hpre : ∀ t ∈ pre, (Split t ':').length = 3)
    (htok : (Split tok ':').length ≠ 3) :
    (∃ msg, ParseRelationships relations = some ([], some msg)) ∧
      ((∀ t ∈ pre, validTypes ((Split t ':').getD 0 []) = true) →
        ParseRelationships relations = some ([], some (relationFormatError tok)) ∧
          tok <:+: relationFormatError tok) ∧
      (∀ pre₁ post₁ t, pre = pre₁ ++ t :: post₁ →
        (∀ u ∈ pre₁, validTypes ((Split u ':').getD 0 []) = true) →
        validTypes ((Split t ':').getD 0 []) = false →
        ParseRelationships relations =
          some ([], some (relationTypeError ((Split t ':').getD 0 [])))) := by
  rw [parseRelations_of_ne_nil relations hne, hsplit]
  refine ⟨parseRelationsLoop_error pre post tok [] hpre htok, ?_, ?_⟩
  · intro hv
    rw [parseRelationsLoop_append pre _ [] (fun t ht => ⟨hpre t ht, hv t ht⟩),
      parseRelationsLoop_format tok post _ htok]
    exact ⟨rfl, relationFormatError_contains tok⟩
  · intro pre₁ post₁ t hp hv ht
    subst hp
    rw [List.append_assoc, parseRelationsLoop_append pre₁ _ []
      (fun u hu => ⟨hpre u (by simp [hu]), hv u hu⟩)]
    exact parseRelationsLoop_type t _ _ (hpre t (by simp)) ht

/-- The amended statement on `"oneToOne:a:B bad"`: the token before `bad` has a
known kind, and the message of the error contains `bad`. -/
theorem ParseRelationships_malformed_witness :
    ParseRelationships "oneToOne:a:B bad".toList =
        some ([], some (relationFormatError "bad".toList)) ∧
      "bad".toList <:+: relationFormatError "bad".toList :=
  (ParseRelationships_malformed "oneToOne:a:B bad".toList (by decide)
    ["oneToOne:a:B".toList] [] "bad".toList (by decide) (by decide) (by decide)).2.1
    (by decide)

/-! ## Characters -/

theorem ascii_cases (P : Char → Prop) (h : ∀ n : Fin 128, P (Char.ofNat n.val)) (c : Char)
    (hc : c.toNat < 128) : P c := by
  have := h ⟨c.toNat, hc⟩
  simpa [Char.ofNat_toNat] using this

theorem toNat_lt_of_isLowerAZ (c : Char) (h : isLowerAZ c = true) : c.toNat < 128 := by
  simp only [isLowerAZ, Bool.and_eq_true, decide_eq_true_eq] at h
  have : 'z'.toNat = 122 := by decide
  omega

theorem toNat_lt_of_isUpperAZ (c : Char) (h : isUpperAZ c = true) : c.toNat < 128 := by
  simp only [isUpperAZ, Bool.and_eq_true, decide_eq_true_eq] at h
  have : 'Z'.toNat = 90 := by decide
  omega

/-- What the character tests and case mappings do on a letter of `[a-z]`. -/
theorem lower_facts (c : Char) (h : isLowerAZ c = true) :
    isUpperAZ c = false ∧ IsSpace c = false ∧ c ≠ '-' ∧ c ≠ '_' ∧ c ≠ ' ' ∧
      toLowerRune c = c ∧ toLowerRune (toUpperRune c) = c ∧
      isUpperAZ (toUpperRune c) = true ∧ isLowerAZ (toUpperRune c) = false :=
  ascii_cases (fun c => isLowerAZ c = true → isUpperAZ c = false ∧ IsSpace c = false ∧
    c ≠ '-' ∧ c ≠ '_' ∧ c ≠ ' ' ∧ toLowerRune c = c ∧ toLowerRune (toUpperRune c) = c ∧
      isUpperAZ (toUpperRune c) = true ∧ isLowerAZ (toUpperRune c) = false)
    (by decide) c (toNat_lt_of_isLowerAZ c h) h

/-- A letter is not a space, a hyphen or an underscore, and its upper-case image
is again a letter. -/
theorem letter_facts (c : Char) (h : (isLowerAZ c || isUpperAZ c) = true) :
    IsSpace c = false ∧ c ≠ '-' ∧ c ≠ '_' ∧ c ≠ ' ' ∧
      (isLowerAZ (toUpperRune c) || isUpperAZ (toUpperRune c)) = true := by
  have hc : c.toNat < 128 := by
    rcases Bool.or_eq_true _ _ |>.mp h with h | h
    · exact toNat_lt_of_isLowerAZ c h
    · exact toNat_lt_of_isUpperAZ c h
  exact ascii_cases (fun c => (isLowerAZ c || isUpperAZ c) = true → IsSpace c = false ∧
    c ≠ '-' ∧ c ≠ '_' ∧ c ≠ ' ' ∧
      (isLowerAZ (toUpperRune c) || isUpperAZ (toUpperRune c)) = true) (by decide) c hc h

/-! ## Lemmas on `ReplaceAll`, `insertCaseBreaks` and `Fields` -/

theorem ReplaceAll_of_not_mem (s : Str) (old : Char) (new : Str) (h : old ∉ s) :
    ReplaceAll s old new = s := by
  induction s with
  | nil => rfl
  | cons c cs ih =>
    have hc : c ≠ old := fun e => h (by simp [e])
    have hcs : old ∉ cs := fun e => h (by simp [e])
    rw [ReplaceAll, if_neg hc, ih hcs]

theorem ReplaceAll_append (a b : Str) (old : Char) (new : Str) :
    ReplaceAll (a ++ b) old new = ReplaceAll a old new ++ ReplaceAll b old new := by
  induction a with
  | nil => rfl
  | cons c cs ih =>
    show ReplaceAll (c :: (cs ++ b)) old new = _
    by_cases hc : c = old
    · rw [ReplaceAll, if_pos hc, ih, ReplaceAll, if_pos hc, List.append_assoc]
    · rw [ReplaceAll, if_neg hc, ih, ReplaceAll, if_neg hc, List.cons_append]

/-- Replacing the separator of a join by another character. -/
theorem ReplaceAll_Join (words : List Str) (old c : Char) (h : ∀ w ∈ words, old ∉ w) :
    ReplaceAll (Join words [old]) old [c] = Join words [c] := by
  induction words with
  | nil => rfl
  | cons w ws ih =>
    have hw := h w (by simp)
    have hws := ih (fun v hv => h v (List.mem_cons_of_mem _ hv))
    cases ws with
    | nil => simpa [Join] using ReplaceAll_of_not_mem w old [c] hw
    | cons v vs =>
      rw [Join_cons_cons, Join_cons_cons, ReplaceAll_append, ReplaceAll_append,
        ReplaceAll_of_not_mem w old [c] hw, hws]
      simp [ReplaceAll]

theorem noCaseBreak_iff_chain (s : Str) :
    NoCaseBreak s ↔
      List.Chain' (fun a b => ¬ (isLowerAZ a = true ∧ isUpperAZ b = true)) s := by
  induction s with
  | nil => simp [NoCaseBreak, hasCaseBreak]
  | cons a t ih =>
    cases t with
    | nil => simp [NoCaseBreak, hasCaseBreak]
    | cons b rest =>
      rw [List.chain'_cons, ← ih]
      simp only [NoCaseBreak, hasCaseBreak, Bool.or_eq_false_iff, Bool.and_eq_false_imp,
        not_and, Bool.not_eq_true]

theorem insertCaseBreaks_of_noCaseBreak (s : Str) (h : NoCaseBreak s) :
    insertCaseBreaks s = s := by
  rw [noCaseBreak_iff_chain] at h
  induction s with
  | nil => rfl
  | cons a t ih =>
    cases t with
    | nil => rfl
    | cons b rest =>
      have hab := (List.chain'_cons.mp h).1
      have ht := (List.chain'_cons.mp h).2
      have hcond : (isLowerAZ a && isUpperAZ b) = false := by
        cases ha : isLowerAZ a <;> cases hb : isUpperAZ b <;> simp_all
      rw [insertCaseBreaks, hcond]
      simp only [Bool.false_eq_true, if_false]
      rw [ih ht]

theorem Fields_of_noSpace (w : Str) (hne : w ≠ []) (h : ∀ c ∈ w, IsSpace c = false) :
    Fields w = [w] := by
  induction w with
  | nil => exact absurd rfl hne
  | cons a t ih =>
    have ha : IsSpace a = false := h a (by simp)
    cases t with
    | nil => simp [Fields, ha]
    | cons b rest =>
      have hb : IsSpace b = false := h b (by simp)
      have := ih (by simp) (fun c hc => h c (List.mem_cons_of_mem _ hc))
      rw [Fields.eq_def]
      simp only [ha, hb, Bool.false_eq_true, if_false]
      rw [this]

theorem Fields_append_space (w rest : Str) (sp : Char) (hne : w ≠ [])
    (h : ∀ c ∈ w, IsSpace c = false) (hsp : IsSpace sp = true) :
    Fields (w ++ sp :: rest) = w :: Fields rest := by
  induction w with
  | nil => exact absurd rfl hne
  | cons a t ih =>
    have ha : IsSpace a = false := h a (by simp)
    cases t with
    | nil =>
      show Fields (a :: sp :: rest) = _
      rw [Fields.eq_def]
      simp only [ha, hsp, Bool.false_eq_true, if_false, if_true]
      rw [Fields.eq_def]
      simp only [hsp, if_true]
    | cons b t' =>
      have hb : IsSpace b = false := h b (by simp)
      have := ih (by simp) (fun c hc => h c (List.mem_cons_of_mem _ hc))
      show Fields (a :: (b :: (t' ++ sp :: rest))) = _
      rw [Fields]
      simp only [ha, hb, Bool.false_eq_true, if_false]
      rw [List.cons_append] at this
      rw [this]

/-- Cutting a join by single spaces of non-empty space-free words gives the
words back. -/
theorem Fields_Join (words : List Str)
    (h : ∀ w ∈ words, w ≠ [] ∧ ∀ c ∈ w, IsSpace c = false) :
    Fields (Join words [' ']) = words := by
  induction words with
  | nil => rfl
  | cons w ws ih =>
    have hw := h w (by simp)
    have hws := ih (fun v hv => h v (List.mem_cons_of_mem _ hv))
    cases ws with
    | nil => simpa [Join] using Fields_of_noSpace w hw.1 hw.2
    | cons v vs =>
      rw [Join_cons_cons, List.append_assoc, List.singleton_append,
        Fields_append_space w _ ' ' hw.1 hw.2 (by decide), hws]

theorem Join_cons_head (a : Char) (t : Str) (rest : List Str) (sep : Str) :
    Join ((a :: t) :: rest) sep = a :: Join (t :: rest) sep := by
  cases rest <;> rfl

theorem mem_Join (words : List Str) (sep : Str) (c : Char) (h : c ∈ Join words sep) :
    c ∈ sep ∨ ∃ w ∈ words, c ∈ w := by
  induction words with
  | nil => simp [Join] at h
  | cons w ws ih =>
    cases ws with
    | nil => exact Or.inr ⟨w, by simp, by simpa [Join] using h⟩
    | cons v vs =>
      rw [Join_cons_cons, List.mem_append, List.mem_append] at h
      rcases h with (h | h) | h
      · exact Or.inr ⟨w, by simp, h⟩
      · exact Or.inl h
      · rcases ih h with h | ⟨u, hu, hc⟩
        · exact Or.inl h
        · exact Or.inr ⟨u, List.mem_cons_of_mem _ hu, hc⟩

theorem NoCaseBreak_Join (words : List Str) (h : ∀ w ∈ words, NoCaseBreak w) :
    NoCaseBreak (Join words [' ']) := by
  induction words with
  | nil => rfl
  | cons w ws ih =>
    have hw := h w (by simp)
    have hws := ih (fun v hv => h v (List.mem_cons_of_mem _ hv))
    cases ws with
    | nil => simpa [Join] using hw
    | cons v vs =>
      rw [Join_cons_cons, List.append_assoc, List.singleton_append]
      rw [noCaseBreak_iff_chain] at hw hws ⊢
      rw [List.chain'_append]
      refine ⟨hw, ?_, ?_⟩
      · rw [List.chain'_cons']
        refine ⟨?_, hws⟩
        intro y _ hy
        exact absurd hy.1 (by decide)
      · intro x _ y hy hxy
        simp only [List.head?_cons, Option.mem_def, Option.some.injEq] at hy
        subst hy
        exact absurd hxy.2 (by decide)

/-- The two `ReplaceAll` of `splitByCase` turn a join by `_`, `-` or a space of
words without hyphen and underscore into the join by single spaces. -/
theorem normalize_separators (words : List Str) (sep : Char)
    (hsep : sep = '_' ∨ sep = '-' ∨ sep = ' ')
    (h : ∀ w ∈ words, '-' ∉ w ∧ '_' ∉ w) :
    ReplaceAll (ReplaceAll (Join words [sep]) '-' " ".toList) '_' " ".toList =
      Join words [' '] := by
  have e : " ".toList = [' '] := rfl
  rw [e]
  have hnot : ∀ (old x : Char), old ≠ x → (∀ w ∈ words, old ∉ w) → old ∉ Join words [x] := by
    intro old x hox hw hmem
    rcases mem_Join words [x] old hmem with h1 | ⟨w, hw1, hw2⟩
    · exact hox (by simpa using h1)
    · exact hw w hw1 hw2
  rcases hsep with rfl | rfl | rfl
  · rw [ReplaceAll_of_not_mem _ '-' _ (hnot '-' '_' (by decide) (fun w hw => (h w hw).1)),
      ReplaceAll_Join words '_' ' ' (fun w hw => (h w hw).2)]
  · rw [ReplaceAll_Join words '-' ' ' (fun w hw => (h w hw).1),
      ReplaceAll_of_not_mem _ '_' _ (hnot '_' ' ' (by decide) (fun w hw => (h w hw).2))]
  · rw [ReplaceAll_of_not_mem _ '-' _ (hnot '-' ' ' (by decide) (fun w hw => (h w hw).1)),
      ReplaceAll_of_not_mem _ '_' _ (hnot '_' ' ' (by decide) (fun w hw => (h w hw).2))]

/-- Segmentation of a join: words of letters without an inner lower-to-upper
transition, joined by `_`, `-` or a space, are cut back into the words. -/
theorem splitByCase_Join (words : List Str) (sep : Char)
    (hsep : sep = '_' ∨ sep = '-' ∨ sep = ' ')
    (hw : ∀ w ∈ words, LetterWord w) (hb : ∀ w ∈ words, NoCaseBreak w) :
    splitByCase (Join words [sep]) = words := by
  unfold splitByCase
  simp only
  rw [normalize_separators words sep hsep
      (fun w hw1 => ⟨fun hc => (letter_facts _ ((hw w hw1).2 _ hc)).2.1 rfl,
        fun hc => (letter_facts _ ((hw w hw1).2 _ hc)).2.2.1 rfl⟩),
    insertCaseBreaks_of_noCaseBreak _ (NoCaseBreak_Join words hb),
    Fields_Join words (fun w hw1 => ⟨(hw w hw1).1, fun c hc => (letter_facts c ((hw w hw1).2 c hc)).1⟩)]

theorem LowerWord.letterWord (w : Str) (h : LowerWord w) : LetterWord w :=
  ⟨h.1, fun c hc => by simp [h.2 c hc]⟩

theorem noCaseBreak_of_noUpper (w : Str) (h : ∀ c ∈ w, isUpperAZ c = false) :
    NoCaseBreak w := by
  rw [noCaseBreak_iff_chain]
  induction w with
  | nil => exact List.chain'_nil
  | cons a t ih =>
    rw [List.chain'_cons']
    refine ⟨?_, ih (fun c hc => h c (List.mem_cons_of_mem _ hc))⟩
    intro y hy hxy
    have hy' : y ∈ t := List.mem_of_mem_head? hy
    have := h y (List.mem_cons_of_mem _ hy')
    rw [this] at hxy
    exact absurd hxy.2 (by decide)

theorem noCaseBreak_of_lower (w : Str) (h : ∀ c ∈ w, isLowerAZ c = true) : NoCaseBreak w :=
  noCaseBreak_of_noUpper w (fun c hc => (lower_facts c (h c hc)).1)

theorem ToLower_of_lower (w : Str) (h : ∀ c ∈ w, isLowerAZ c = true) : ToLower w = w := by
  unfold ToLower
  conv_rhs => rw [← List.map_id w]
  apply List.map_congr_left
  intro c hc
  exact (lower_facts c (h c hc)).2.2.2.2.2.1

theorem map_ToLower_of_lower (words : List Str) (h : ∀ w ∈ words, LowerWord w) :
    words.map ToLower = words := by
  conv_rhs => rw [← List.map_id words]
  apply List.map_congr_left
  intro w hw
  exact ToLower_of_lower w (h w hw).2

/-! ## The kinds of relationship -/

theorem validTypes_iff (k : Str) :
    validTypes k = true ↔
      k = "oneToOne".toList ∨ k = "oneToMany".toList ∨ k = "manyToOne".toList ∨
        k = "manyToMany".toList := by
  simp only [validTypes, Bool.or_eq_true, decide_eq_true_eq, or_assoc]

theorem relationTypeError_contains (k : Str) : k <:+: relationTypeError k :=
  ⟨_, _, rfl⟩

/-- Every record the loop returns has a kind that `validTypes` knows. -/
theorem parseRelationsLoop_types (toks : List Str) (acc recs : List RelationMap)
    (err : Option Str) (h : parseRelationsLoop toks acc = some (recs, err))
    (hacc : ∀ r ∈ acc, validTypes r.type = true) : ∀ r ∈ recs, validTypes r.type = true := by
  induction toks generalizing acc with
  | nil =>
    simp only [parseRelationsLoop, Option.some.injEq, Prod.mk.injEq] at h
    rw [← h.1]
    exact hacc
  | cons t ts ih =>
    by_cases h3 : (Split t ':').length = 3
    · cases hv : validTypes ((Split t ':').getD 0 [])
      · rw [parseRelationsLoop_type t ts acc h3 hv] at h
        simp only [Option.some.injEq, Prod.mk.injEq] at h
        rw [← h.1]
        simp
      · rw [parseRelationsLoop_step t ts acc h3 hv] at h
        apply ih _ h
        intro r hr
        rcases List.mem_append.mp hr with hr | hr
        · exact hacc r hr
        · simp only [List.mem_singleton] at hr
          subst hr
          exact hv
    · rw [parseRelationsLoop_format t ts acc h3] at h
      simp only [Option.some.injEq, Prod.mk.injEq] at h
      rw [← h.1]
      simp

theorem ne_nil_of_split_three (relations : Str) (pre post : List Str) (tok a b c : Str)
    (hsplit : Split relations ' ' = pre ++ tok :: post) (htok : Split tok ':' = [a, b, c]) :
    relations ≠ [] := by
  rintro rfl
  have h1 : pre ++ tok :: post = [[]] := by rw [← hsplit]; rfl
  cases pre with
  | nil =>
    simp only [List.nil_append, List.cons.injEq] at h1
    rw [h1.1] at htok
    simp [Split] at htok
  | cons p ps =>
    have := congrArg List.length h1
    simp at this

/-- C11: when the tokens before it are accepted, a three-part token whose first
part is none of `oneToOne`, `oneToMany`, `manyToOne`, `manyToMany` (compared
letter for letter) makes `ParseRelationships` return the invalid-type error,
whose message contains that first part, and no records. -/
theorem ParseRelationships_unknown_kind (relations : Str) (pre post : List Str)
    (tok kind field entity : Str)
    (hsplit : Split relations ' ' = pre ++ tok :: post)
    (hpre : ∀ t ∈ pre, (Split t ':').length = 3 ∧
      validTypes ((Split t ':').getD 0 []) = true)
    (htok : Split tok ':' = [kind, field, entity])
    (hkind : kind ≠ "oneToOne".toList ∧ kind ≠ "oneToMany".toList ∧
      kind ≠ "manyToOne".toList ∧ kind ≠ "manyToMany".toList) :
    ParseRelationships relations = some ([], some (relationTypeError kind)) ∧
      kind <:+: relationTypeError kind := by
  have hne := ne_nil_of_split_three relations pre post tok kind field entity hsplit htok
  have hv : validTypes ((Split tok ':').getD 0 []) = false := by
    rw [htok]
    cases hvk : validTypes kind
    · simpa using hvk
    · rcases (validTypes_iff kind).mp hvk with h | h | h | h
      · exact absurd h hkind.1
      · exact absurd h hkind.2.1
      · exact absurd h hkind.2.2.1
      · exact absurd h hkind.2.2.2
  have h3 : (Split tok ':').length = 3 := by rw [htok]; rfl
  refine ⟨?_, relationTypeError_contains kind⟩
  rw [parseRelations_of_ne_nil relations hne, hsplit, parseRelationsLoop_append pre _ [] hpre,
    parseRelationsLoop_type tok post _ h3 hv, htok]
  rfl

/-- The token `hasOne:author:User` alone. -/
theorem ParseRelationships_unknown_kind_witness :
    ParseRelationships "hasOne:author:User".toList =
        some ([], some (relationTypeError "hasOne".toList)) ∧
      "hasOne".toList <:+: relationTypeError "hasOne".toList :=
  ParseRelationships_unknown_kind "hasOne:author:User".toList [] []
    "hasOne:author:User".toList "hasOne".toList "author".toList "User".toList
    (by decide) (by decide) (by decide) (by decide)

/-- C12 (counterexample): the token `one-to-many:items:Item` has three parts and
a hyphenated kind; `ParseRelationships` rejects it with the invalid-type
error. -/
theorem ParseRelationships_hyphenated_counterexample :
    Split "one-to-many:items:Item".toList ':' =
        ["one-to-many".toList, "items".toList, "Item".toList] ∧
      ParseRelationships "one-to-many:items:Item".toList =
        some ([], some (relationTypeError "one-to-many".toList)) := by
  decide

/-- C12 (amended): the kind of every record returned by `ParseRelationships` is
one of `oneToOne`, `oneToMany`, `manyToOne`, `manyToMany`; a three-part token on
its own fails with the invalid-type error exactly when its first part is not
one of these four names, and is otherwise accepted with its three parts as the
record; so `oneToMany:items:Item` is accepted. -/
theorem ParseRelationships_kinds :
    (∀ relations recs err, ParseRelationships relations = some (recs, err) →
        ∀ r ∈ recs, r.type = "oneToOne".toList ∨ r.type = "oneToMany".toList ∨
          r.type = "manyToOne".toList ∨ r.type = "manyToMany".toList) ∧
      (∀ tok kind field entity : Str, ' ' ∉ tok → Split tok ':' = [kind, field, entity] →
        (ParseRelationships tok = some ([], some (relationTypeError kind)) ↔
            ¬ (kind = "oneToOne".toList ∨ kind = "oneToMany".toList ∨
              kind = "manyToOne".toList ∨ kind = "manyToMany".toList)) ∧
          ((kind = "oneToOne".toList ∨ kind = "oneToMany".toList ∨
              kind = "manyToOne".toList ∨ kind = "manyToMany".toList) →
            ParseRelationships tok =
              some ([{ type := kind, field := field, entity := entity }], none))) ∧
      ParseRelationships "oneToMany:items:Item".toList =
        some ([{ type := "oneToMany".toList, field := "items".toList,
                 entity := "Item".toList }], none) := by
  refine ⟨?_, ?_, by decide⟩
  · intro relations recs err h r hr
    rw [← validTypes_iff]
    by_cases hne : relations = []
    · subst hne
      simp only [ParseRelationships, if_true, Option.some.injEq, Prod.mk.injEq] at h
      rw [← h.1] at hr
      simp at hr
    · rw [parseRelations_of_ne_nil relations hne] at h
      exact parseRelationsLoop_types _ [] recs err h (by simp) r hr
  · intro tok kind field entity hsp htok
    have hsplit : Split tok ' ' = [] ++ tok :: [] := Split_of_not_mem tok ' ' hsp
    have hne := ne_nil_of_split_three tok [] [] tok kind field entity hsplit htok
    have h3 : (Split tok ':').length = 3 := by rw [htok]; rfl
    have hloop : ParseRelationships tok = parseRelationsLoop [tok] [] := by
      rw [parseRelations_of_ne_nil tok hne, Split_of_not_mem tok ' ' hsp]
    have hok : validTypes kind = true →
        ParseRelationships tok =
          some ([{ type := kind, field := field, entity := entity }], none) := by
      intro hv
      rw [hloop, parseRelationsLoop_step tok [] [] h3 (by rw [htok]; exact hv), parseRelationsLoop]
      simp [relationOfToken, htok]
    have hbad : validTypes kind = false →
        ParseRelationships tok = some ([], some (relationTypeError kind)) := by
      intro hv
      rw [hloop, parseRelationsLoop_type tok [] [] h3 (by rw [htok]; exact hv), htok]
      rfl
    rw [← validTypes_iff]
    refine ⟨⟨?_, ?_⟩, hok⟩
    · intro h hv
      rw [hok hv] at h
      simp at h
    · intro hv
      exact hbad (by simpa using hv)

/-- The amended statement on the token `manyToMany:tags:Tag`. -/
theorem ParseRelationships_kinds_witness :
    ParseRelationships "manyToMany:tags:Tag".toList =
      some ([{ type := "manyToMany".toList, field := "tags".toList,
               entity := "Tag".toList }], none) :=
  (ParseRelationships_kinds.2.1 "manyToMany:tags:Tag".toList "manyToMany".toList
    "tags".toList "Tag".toList (by decide) (by decide)).2 (by decide)

/-! ## PascalCase input -/

theorem Capitalize_lower (c : Char) (cs : Str) (h : ∀ d ∈ cs, isLowerAZ d = true) :
    Capitalize (c :: cs) = toUpperRune c :: cs := by
  have := ToLower_of_lower cs h
  unfold ToLower at this
  rw [Capitalize, this]

theorem insertCaseBreaks_skip (a b : Char) (rest : Str)
    (h : (isLowerAZ a && isUpperAZ b) = false) :
    insertCaseBreaks (a :: b :: rest) = a :: insertCaseBreaks (b :: rest) := by
  rw [insertCaseBreaks, h]
  simp

theorem insertCaseBreaks_break (a b : Char) (rest : Str)
    (ha : isLowerAZ a = true) (hb : isUpperAZ b = true) :
    insertCaseBreaks (a :: b :: rest) = a :: ' ' :: b :: insertCaseBreaks rest := by
  rw [insertCaseBreaks, ha, hb]
  simp

/-- A run of lower-case letters followed by an upper-case letter: the break is
put after the run, and the scan goes on after the upper-case letter. -/
theorem insertCaseBreaks_lows_upper (lows : Str) (u : Char) (rest : Str) (hne : lows ≠ [])
    (hl : ∀ c ∈ lows, isLowerAZ c = true) (hu : isUpperAZ u = true) :
    insertCaseBreaks (lows ++ u :: rest) = lows ++ ' ' :: u :: insertCaseBreaks rest := by
  induction lows with
  | nil => exact absurd rfl hne
  | cons a t ih =>
    have ha := hl a (by simp)
    cases t with
    | nil => exact insertCaseBreaks_break a u rest ha hu
    | cons b t' =>
      have hb := hl b (by simp)
      have hcond : (isLowerAZ a && isUpperAZ b) = false := by
        rw [(lower_facts b hb).1]; simp
      show insertCaseBreaks (a :: b :: (t' ++ u :: rest)) = _
      rw [insertCaseBreaks_skip a b _ hcond]
      have := ih (by simp) (fun c hc => hl c (List.mem_cons_of_mem _ hc))
      rw [List.cons_append] at this
      rw [this]
      rfl

/-- A run of lower-case letters followed by capitalised lower-case words, of
which all but the last have two letters or more: a space is put before every
word. -/
theorem insertCaseBreaks_lows_Pascal (ws : List Str) (hw : ∀ w ∈ ws, LowerWord w)
    (h2 : ∀ w ∈ ws.dropLast, 2 ≤ w.length) (lows : Str) (hl : ∀ c ∈ lows, isLowerAZ c = true)
    (hne : lows ≠ [] ∨ ws = []) :
    insertCaseBreaks (Join (lows :: ws.map Capitalize) []) =
      Join (lows :: ws.map Capitalize) [' '] := by
  induction ws generalizing lows with
  | nil =>
    simp only [List.map_nil, Join]
    exact insertCaseBreaks_of_noCaseBreak lows (noCaseBreak_of_lower lows hl)
  | cons w ws ih =>
    have hlne : lows ≠ [] := by
      rcases hne with h | h
      · exact h
      · simp at h
    obtain ⟨hwne, hwl⟩ := hw w (by simp)
    cases w with
    | nil => exact absurd rfl hwne
    | cons c cs =>
      have hc := hwl c (by simp)
      have hcs : ∀ d ∈ cs, isLowerAZ d = true := fun d hd => hwl d (List.mem_cons_of_mem _ hd)
      have hu := (lower_facts c hc).2.2.2.2.2.2.2.1
      have hrest : ∀ v ∈ ws, LowerWord v := fun v hv => hw v (List.mem_cons_of_mem _ hv)
      have hcond : cs ≠ [] ∨ ws = [] := by
        by_cases hws : ws = []
        · exact Or.inr hws
        · left
          have hmem : (c :: cs) ∈ ((c :: cs) :: ws).dropLast := by
            rw [List.dropLast_cons_of_ne_nil hws]; simp
          have := h2 _ hmem
          intro hnil
          rw [hnil] at this
          simp at this
      have h2rest : ∀ v ∈ ws.dropLast, 2 ≤ v.length := by
        intro v hv
        by_cases hws : ws = []
        · rw [hws] at hv; simp at hv
        · apply h2
          rw [List.dropLast_cons_of_ne_nil hws]
          exact List.mem_cons_of_mem _ hv
      have key := ih hrest h2rest cs hcs hcond
      rw [List.map_cons, Capitalize_lower c cs hcs, Join_cons_cons, Join_cons_cons,
        List.append_nil, Join_cons_head, Join_cons_head,
        insertCaseBreaks_lows_upper lows _ _ hlne hl hu, key]
      simp

/-- The breaks inserted in a PascalCase concatenation of lower-case words, all
but the last of two letters or more. -/
theorem insertCaseBreaks_Pascal (ws : List Str) (hw : ∀ w ∈ ws, LowerWord w)
    (h2 : ∀ w ∈ ws.dropLast, 2 ≤ w.length) :
    insertCaseBreaks (Pascal ws) = Join (ws.map Capitalize) [' '] := by
  unfold Pascal
  cases ws with
  | nil => rfl
  | cons w ws =>
    obtain ⟨hwne, hwl⟩ := hw w (by simp)
    cases w with
    | nil => exact absurd rfl hwne
    | cons c cs =>
      have hc := hwl c (by simp)
      have hcs : ∀ d ∈ cs, isLowerAZ d = true := fun d hd => hwl d (List.mem_cons_of_mem _ hd)
      have hrest : ∀ v ∈ ws, LowerWord v := fun v hv => hw v (List.mem_cons_of_mem _ hv)
      have hcond : cs ≠ [] ∨ ws = [] := by
        by_cases hws : ws = []
        · exact Or.inr hws
        · left
          have hmem : (c :: cs) ∈ ((c :: cs) :: ws).dropLast := by
            rw [List.dropLast_cons_of_ne_nil hws]; simp
          have := h2 _ hmem
          intro hnil
          rw [hnil] at this
          simp at this
      have h2rest : ∀ v ∈ ws.dropLast, 2 ≤ v.length := by
        intro v hv
        by_cases hws : ws = []
        · rw [hws] at hv; simp at hv
        · apply h2
          rw [List.dropLast_cons_of_ne_nil hws]
          exact List.mem_cons_of_mem _ hv
      have key := insertCaseBreaks_lows_Pascal ws hrest h2rest cs hcs hcond
      rw [List.map_cons, Capitalize_lower c cs hcs, Join_cons_head, Join_cons_head]
      have hnl : isLowerAZ (toUpperRune c) = false := (lower_facts c hc).2.2.2.2.2.2.2.2
      cases hj : Join (cs :: ws.map Capitalize) [] with
      | nil =>
        -- the first word has one letter and is the only word
        rw [hj] at key
        rw [← key]
        rfl
      | cons b rest =>
        rw [insertCaseBreaks_skip _ b rest (by rw [hnl]; rfl), ← hj, key]

theorem Capitalize_letterWord (w : Str) (h : LowerWord w) : LetterWord (Capitalize w) := by
  obtain ⟨hne, hl⟩ := h
  cases w with
  | nil => exact absurd rfl hne
  | cons c cs =>
    have hcs : ∀ d ∈ cs, isLowerAZ d = true := fun d hd => hl d (List.mem_cons_of_mem _ hd)
    rw [Capitalize_lower c cs hcs]
    refine ⟨by simp, ?_⟩
    intro d hd
    rcases List.mem_cons.mp hd with rfl | hd
    · rw [(lower_facts c (hl c (by simp))).2.2.2.2.2.2.2.1]; simp
    · rw [hcs d hd]; simp

theorem ToLower_Capitalize (w : Str) (h : LowerWord w) : ToLower (Capitalize w) = w := by
  obtain ⟨hne, hl⟩ := h
  cases w with
  | nil => exact absurd rfl hne
  | cons c cs =>
    have hcs : ∀ d ∈ cs, isLowerAZ d = true := fun d hd => hl d (List.mem_cons_of_mem _ hd)
    rw [Capitalize_lower c cs hcs]
    have := ToLower_of_lower cs hcs
    unfold ToLower at this ⊢
    rw [List.map_cons, this, (lower_facts c (hl c (by simp))).2.2.2.2.2.2.1]

/-- Segmentation of a PascalCase concatenation of lower-case words, all but the
last of two letters or more: the capitalised words. -/
theorem splitByCase_Pascal (ws : List Str) (hw : ∀ w ∈ ws, LowerWord w)
    (h2 : ∀ w ∈ ws.dropLast, 2 ≤ w.length) :
    splitByCase (Pascal ws) = ws.map Capitalize := by
  have hletters : ∀ v ∈ ws.map Capitalize, LetterWord v := by
    intro v hv
    obtain ⟨w, hw1, rfl⟩ := List.mem_map.mp hv
    exact Capitalize_letterWord w (hw w hw1)
  have hnot : ∀ old : Char, old = '-' ∨ old = '_' → old ∉ Pascal ws := by
    intro old hold hmem
    rcases mem_Join _ _ _ hmem with h | ⟨v, hv, hc⟩
    · simp at h
    · have := letter_facts old ((hletters v hv).2 old hc)
      rcases hold with rfl | rfl
      · exact this.2.1 rfl
      · exact this.2.2.1 rfl
  unfold splitByCase
  simp only
  rw [ReplaceAll_of_not_mem _ '-' _ (hnot '-' (Or.inl rfl)),
    ReplaceAll_of_not_mem _ '_' _ (hnot '_' (Or.inr rfl)),
    insertCaseBreaks_Pascal ws hw h2,
    Fields_Join _ (fun v hv => ⟨(hletters v hv).1,
      fun c hc => (letter_facts c ((hletters v hv).2 c hc)).1⟩)]

theorem ToDatabaseTableName_Join (words : List Str) (sep : Char)
    (hsep : sep = '_' ∨ sep = '-' ∨ sep = ' ') (hw : ∀ w ∈ words, LowerWord w) :
    ToDatabaseTableName (Join words [sep]) = Join words "_".toList := by
  unfold ToDatabaseTableName
  simp only
  rw [splitByCase_Join words sep hsep (fun w h => LowerWord.letterWord w (hw w h))
      (fun w h => noCaseBreak_of_lower w (hw w h).2), map_ToLower_of_lower words hw]

theorem ToDatabaseTableName_Pascal (words : List Str) (hw : ∀ w ∈ words, LowerWord w)
    (h2 : ∀ w ∈ words.dropLast, 2 ≤ w.length) :
    ToDatabaseTableName (Pascal words) = Join words "_".toList := by
  unfold ToDatabaseTableName
  simp only
  rw [splitByCase_Pascal words hw h2, List.map_map]
  have : words.map (ToLower ∘ Capitalize) = words := by
    conv_rhs => rw [← List.map_id words]
    apply List.map_congr_left
    intro w hw1
    exact ToLower_Capitalize w (hw w hw1)
  rw [this]

/-! ## The naming functions of `pkg/util/util.go` -/

/-- C13 (counterexample): the lower-case words `a` and `b` have the PascalCase
concatenation `AB`, in which no lower-case letter comes before an upper-case
one; `ToDatabaseTableName` returns `ab`, not `a_b`. -/
theorem ToDatabaseTableName_Pascal_counterexample :
    LowerWord "a".toList ∧ LowerWord "b".toList ∧
      Pascal ["a".toList, "b".toList] = "AB".toList ∧
      Join ["a".toList, "b".toList] "_".toList = "a_b".toList ∧
      ToDatabaseTableName (Pascal ["a".toList, "b".toList]) = "ab".toList ∧
      ToDatabaseTableName (Pascal ["a".toList, "b".toList]) ≠
        Join ["a".toList, "b".toList] "_".toList := by
  decide

/-- C13 (amended): for every list of non-empty lower-case ASCII words,
`ToDatabaseTableName` and `ToColumnName` applied to the words joined by `_`, by
`-` or by a space return the words joined by `_`; applied to the PascalCase
concatenation of the words they return the same when every word but the last
has at least two letters. -/
theorem ToDatabaseTableName_uniform (words : List Str) (hw : ∀ w ∈ words, LowerWord w) :
    ToDatabaseTableName (Join words "_".toList) = Join words "_".toList ∧
      ToDatabaseTableName (Join words "-".toList) = Join words "_".toList ∧
      ToDatabaseTableName (Join words " ".toList) = Join words "_".toList ∧
      ToColumnName (Join words "_".toList) = Join words "_".toList ∧
      ToColumnName (Join words "-".toList) = Join words "_".toList ∧
      ToColumnName (Join words " ".toList) = Join words "_".toList ∧
      ((∀ w ∈ words.dropLast, 2 ≤ w.length) →
        ToDatabaseTableName (Pascal words) = Join words "_".toList ∧
          ToColumnName (Pascal words) = Join words "_".toList) := by
  have h1 := ToDatabaseTableName_Join words '_' (Or.inl rfl) hw
  have h2 := ToDatabaseTableName_Join words '-' (Or.inr (Or.inl rfl)) hw
  have h3 := ToDatabaseTableName_Join words ' ' (Or.inr (Or.inr rfl)) hw
  exact ⟨h1, h2, h3, h1, h2, h3, fun h => ⟨ToDatabaseTableName_Pascal words hw h,
    ToDatabaseTableName_Pascal words hw h⟩⟩

/-- The four spellings of the words `user`, `account`. -/
theorem ToDatabaseTableName_uniform_witness :
    ToDatabaseTableName "user_account".toList = "user_account".toList ∧
      ToDatabaseTableName "user-account".toList = "user_account".toList ∧
      ToDatabaseTableName "user account".toList = "user_account".toList ∧
      ToDatabaseTableName "UserAccount".toList = "user_account".toList :=
  have h := ToDatabaseTableName_uniform ["user".toList, "account".toList] (by decide)
  ⟨h.1, h.2.1, h.2.2.1, (h.2.2.2.2.2.2 (by decide)).1⟩

/-- The loop of `ToJavaClassName` capitalises every word, and no slice is out
of range. -/
theorem classNameLoop_eq (words : List Str) :
    classNameLoop words = some (words.map Capitalize) := by
  induction words with
  | nil => rfl
  | cons w ws ih =>
    have hword : classNameWord w = some (Capitalize w) := by
      cases w with
      | nil => rfl
      | cons c cs => simp [classNameWord, slice, sliceFrom, Capitalize, ToUpper, ToLower]
    rw [classNameLoop, hword, ih]
    rfl

theorem ToJavaClassName_eq (name : Str) :
    ToJavaClassName name = some (Pascal (splitByCase name)) := by
  unfold ToJavaClassName
  simp only [classNameLoop_eq]
  rfl

/-- C15: for words of ASCII letters in which no lower-case letter is directly
followed by an upper-case one, `ToJavaClassName` applied to the words joined by
`_`, by `-` or by a space returns the words put together without separator,
each with its first letter upper-cased and its other letters lower-cased. -/
theorem ToJavaClassName_joined (words : List Str) (sep : Char)
    (hsep : sep = '_' ∨ sep = '-' ∨ sep = ' ')
    (hw : ∀ w ∈ words, LetterWord w) (hb : ∀ w ∈ words, NoCaseBreak w) :
    ToJavaClassName (Join words [sep]) = some (Pascal words) := by
  rw [ToJavaClassName_eq, splitByCase_Join words sep hsep hw hb]

/-- The class name of `USER-ACCOUNT` is `UserAccount`. -/
theorem ToJavaClassName_joined_witness :
    ToJavaClassName "USER-ACCOUNT".toList = some "UserAccount".toList :=
  ToJavaClassName_joined ["USER".toList, "ACCOUNT".toList] '-' (by decide) (by decide)
    (by decide)

/-! ## Other separators -/

theorem ReplaceAll_mid (w1 w2 : Str) (c old new : Char) (h1 : old ∉ w1) (h2 : old ∉ w2) :
    ReplaceAll (w1 ++ c :: w2) old [new] = w1 ++ (if c = old then new else c) :: w2 := by
  rw [ReplaceAll_append, ReplaceAll_of_not_mem w1 old _ h1, ReplaceAll]
  by_cases hc : c = old
  · rw [if_pos hc, if_pos hc, ReplaceAll_of_not_mem w2 old _ h2]
    rfl
  · rw [if_neg hc, if_neg hc, ReplaceAll_of_not_mem w2 old _ h2]

/-- An ASCII character outside `[a-zA-Z0-9]` is not a letter and is its own
lower case. -/
theorem nonAlnum_facts (c : Char) (hc : c.toNat < 128) (h : isAlnum c = false) :
    isUpperAZ c = false ∧ isLowerAZ c = false ∧ toLowerRune c = c :=
  ascii_cases (fun c => isAlnum c = false →
    isUpperAZ c = false ∧ isLowerAZ c = false ∧ toLowerRune c = c) (by decide) c hc h

theorem not_isUpperAZ_of_isSpace (c : Char) (h : IsSpace c = true) : isUpperAZ c = false := by
  cases hu : isUpperAZ c
  · rfl
  · have := ascii_cases (fun c => isUpperAZ c = true → IsSpace c = false) (by decide) c
      (toNat_lt_of_isUpperAZ c hu) hu
    rw [this] at h
    exact absurd h (by decide)

/-- Two lower-case words around a hyphen, an underscore or a space character
are two segments. -/
theorem splitByCase_sep (w1 w2 : Str) (c : Char) (h1 : LowerWord w1) (h2 : LowerWord w2)
    (hsep : c = '-' ∨ c = '_' ∨ IsSpace c = true) :
    splitByCase (w1 ++ c :: w2) = [w1, w2] := by
  have hn : ∀ w, LowerWord w → '-' ∉ w ∧ '_' ∉ w ∧ (∀ d ∈ w, IsSpace d = false) ∧
      ∀ d ∈ w, isUpperAZ d = false := fun w hw =>
    ⟨fun hm => (lower_facts _ (hw.2 _ hm)).2.2.1 rfl,
      fun hm => (lower_facts _ (hw.2 _ hm)).2.2.2.1 rfl,
      fun d hd => (lower_facts d (hw.2 d hd)).2.1, fun d hd => (lower_facts d (hw.2 d hd)).1⟩
  obtain ⟨a1, b1, s1, u1⟩ := hn w1 h1
  obtain ⟨a2, b2, s2, u2⟩ := hn w2 h2
  have e : " ".toList = [' '] := rfl
  have hrep : ∃ c2, IsSpace c2 = true ∧
      ReplaceAll (ReplaceAll (w1 ++ c :: w2) '-' " ".toList) '_' " ".toList =
        w1 ++ c2 :: w2 := by
    rw [e, ReplaceAll_mid w1 w2 c '-' ' ' a1 a2]
    rcases hsep with rfl | rfl | hsp
    · refine ⟨' ', by decide, ?_⟩
      rw [if_pos rfl, ReplaceAll_mid w1 w2 ' ' '_' ' ' b1 b2, if_neg (by decide)]
    · refine ⟨' ', by decide, ?_⟩
      rw [if_neg (by decide), ReplaceAll_mid w1 w2 '_' '_' ' ' b1 b2, if_pos rfl]
    · have hc1 : c ≠ '-' := by rintro rfl; exact absurd hsp (by decide)
      have hc2 : c ≠ '_' := by rintro rfl; exact absurd hsp (by decide)
      refine ⟨c, hsp, ?_⟩
      rw [if_neg hc1, ReplaceAll_mid w1 w2 c '_' ' ' b1 b2, if_neg hc2]
  obtain ⟨c2, hsp, hrep⟩ := hrep
  unfold splitByCase
  simp only
  rw [hrep, insertCaseBreaks_of_noCaseBreak, Fields_append_space w1 w2 c2 h1.1 s1 hsp,
    Fields_of_noSpace w2 h2.1 s2]
  apply noCaseBreak_of_noUpper
  intro d hd
  rcases List.mem_append.mp hd with hd | hd
  · exact u1 d hd
  · rcases List.mem_cons.mp hd with rfl | hd
    · exact not_isUpperAZ_of_isSpace _ hsp
    · exact u2 d hd

/-- Two lower-case words around any other ASCII character that is neither a
letter nor a digit stay one segment. -/
theorem splitByCase_nonsep (w1 w2 : Str) (c : Char) (h1 : LowerWord w1) (h2 : LowerWord w2)
    (hc : c.toNat < 128) (hna : isAlnum c = false)
    (hsep : ¬ (c = '-' ∨ c = '_' ∨ IsSpace c = true)) :
    splitByCase (w1 ++ c :: w2) = [w1 ++ c :: w2] := by
  have hc1 : c ≠ '-' := fun h => hsep (Or.inl h)
  have hc2 : c ≠ '_' := fun h => hsep (Or.inr (Or.inl h))
  have hc3 : IsSpace c = false := by
    cases h : IsSpace c
    · rfl
    · exact absurd (Or.inr (Or.inr h)) hsep
  have hmem : ∀ d ∈ w1 ++ c :: w2, d = c ∨ isLowerAZ d = true := by
    intro d hd
    rcases List.mem_append.mp hd with hd | hd
    · exact Or.inr (h1.2 d hd)
    · rcases List.mem_cons.mp hd with rfl | hd
      · exact Or.inl rfl
      · exact Or.inr (h2.2 d hd)
  have e : " ".toList = [' '] := rfl
  unfold splitByCase
  simp only
  rw [ReplaceAll_of_not_mem _ '-', ReplaceAll_of_not_mem _ '_', insertCaseBreaks_of_noCaseBreak,
    Fields_of_noSpace _ (by simp)]
  · intro d hd
    rcases hmem d hd with rfl | hl
    · exact hc3
    · exact (lower_facts d hl).2.1
  · apply noCaseBreak_of_noUpper
    intro d hd
    rcases hmem d hd with rfl | hl
    · exact (nonAlnum_facts _ hc hna).1
    · exact (lower_facts d hl).1
  · intro hd
    rcases hmem _ hd with h | hl
    · exact hc2 h.symm
    · exact (lower_facts _ hl).2.2.2.1 rfl
  · intro hd
    rcases hmem _ hd with h | hl
    · exact hc1 h.symm
    · exact (lower_facts _ hl).2.2.1 rfl

/-- C17 (counterexample): `.` is an ASCII character that is neither a letter nor
a digit, and `splitByCase` leaves `a.b` in one piece; `ToDatabaseTableName`
returns `a.b`, not `a_b`. -/
theorem splitByCase_dot_counterexample :
    LowerWord "a".toList ∧ LowerWord "b".toList ∧ isAlnum '.' = false ∧
      splitByCase "a.b".toList = ["a.b".toList] ∧
      splitByCase "a.b".toList ≠ ["a".toList, "b".toList] ∧
      ToDatabaseTableName "a.b".toList = "a.b".toList ∧
      ToJavaClassName "a.b".toList = some "A.b".toList := by
  decide

/-- C17 (amended): for non-empty lower-case ASCII words `w1`, `w2` and an ASCII
character `c` that is neither a letter nor a digit, `c` is a break point exactly
when it is `-`, `_` or a white-space character: then `splitByCase` gives the two
words, `ToDatabaseTableName` gives them joined by `_` and `ToJavaClassName` the
two capitalised words put together; for any other `c` the whole string is one
segment, which `ToDatabaseTableName` returns unchanged. -/
theorem splitByCase_break_points (w1 w2 : Str) (c : Char) (h1 : LowerWord w1)
    (h2 : LowerWord w2) (hc : c.toNat < 128) (hna : isAlnum c = false) :
    ((c = '-' ∨ c = '_' ∨ IsSpace c = true) →
        splitByCase (w1 ++ c :: w2) = [w1, w2] ∧
          ToDatabaseTableName (w1 ++ c :: w2) = w1 ++ '_' :: w2 ∧
          ToJavaClassName (w1 ++ c :: w2) = some (Capitalize w1 ++ Capitalize w2)) ∧
      (¬ (c = '-' ∨ c = '_' ∨ IsSpace c = true) →
        splitByCase (w1 ++ c :: w2) = [w1 ++ c :: w2] ∧
          ToDatabaseTableName (w1 ++ c :: w2) = w1 ++ c :: w2) := by
  constructor
  · intro hsep
    have hs := splitByCase_sep w1 w2 c h1 h2 hsep
    refine ⟨hs, ?_, ?_⟩
    · unfold ToDatabaseTableName
      simp only
      rw [hs, List.map_cons, List.map_cons, List.map_nil, ToLower_of_lower w1 h1.2,
        ToLower_of_lower w2 h2.2, Join_cons_cons]
      simp [Join]
    · rw [ToJavaClassName_eq, hs]
      simp [Pascal, Join]
  · intro hsep
    have hs := splitByCase_nonsep w1 w2 c h1 h2 hc hna hsep
    refine ⟨hs, ?_⟩
    unfold ToDatabaseTableName
    simp only
    rw [hs]
    simp only [List.map_cons, List.map_nil, Join, ToLower, List.map_append]
    have e1 := ToLower_of_lower w1 h1.2
    have e2 := ToLower_of_lower w2 h2.2
    unfold ToLower at e1 e2
    rw [e1, e2, (nonAlnum_facts c hc hna).2.2]

/-- The amended statement on `user`, `-`, `account` and on `user`, `.`,
`account`. -/
theorem splitByCase_break_points_witness :
    splitByCase "user-account".toList = ["user".toList, "account".toList] ∧
      splitByCase "user.account".toList = ["user.account".toList] :=
  ⟨((splitByCase_break_points "user".toList "account".toList '-' (by decide) (by decide)
      (by decide) (by decide)).1 (by decide)).1,
    ((splitByCase_break_points "user".toList "account".toList '.' (by decide) (by decide)
      (by decide) (by decide)).2 (by decide)).1⟩

/-! ## The naming functions of `pkg/util/string.go` -/

/-- C14 (the code at the failing input): `ToSnakeCase` maps `user_account` and
`user-account` to `user_account`, but it maps `UserAccount` to `useraccount`:
it cuts at runs of characters outside `[a-zA-Z0-9]` only, not at a lower-case
letter followed by an upper-case one. -/
theorem ToSnakeCase_UserAccount :
    ToSnakeCase "UserAccount".toList = "useraccount".toList ∧
      ToSnakeCase "user_account".toList = "user_account".toList ∧
      ToSnakeCase "user-account".toList = "user_account".toList ∧
      ToSnakeCase "UserAccount".toList ≠ ToSnakeCase "user_account".toList ∧
      ToDatabaseTableName "UserAccount".toList = "user_account".toList := by
  decide

/-- C16 (the code at the failing input): `ToCamelCase` maps `user_account` to
`UserAccount`, but it maps `UserAccount` itself to `Useraccount`: the whole
input is lower-cased before the first letter of each word is capitalised, and
words are cut at characters outside `[a-zA-Z0-9]` only. -/
theorem ToCamelCase_UserAccount :
    Pascal ["user".toList, "account".toList] = "UserAccount".toList ∧
      ToCamelCase "UserAccount".toList = "Useraccount".toList ∧
      ToCamelCase "user_account".toList = "UserAccount".toList ∧
      ToCamelCase "UserAccount".toList ≠ ToCamelCase "user_account".toList ∧
      ToJavaClassName "UserAccount".toList = some "UserAccount".toList := by
  decide

/-- C18 (the code at the failing input): `ToKebabCase` maps `blog_post`,
`blog-post` and `blog post` to `blog-post`, but it maps `BlogPost` to
`blogpost`. -/
theorem ToKebabCase_BlogPost :
    Pascal ["blog".toList, "post".toList] = "BlogPost".toList ∧
      ToKebabCase "BlogPost".toList = "blogpost".toList ∧
      ToKebabCase "blog_post".toList = "blog-post".toList ∧
      ToKebabCase "blog-post".toList = "blog-post".toList ∧
      ToKebabCase "blog post".toList = "blog-post".toList ∧
      ToKebabCase "BlogPost".toList ≠ Join ["blog".toList, "post".toList] "-".toList := by
  decide

/-! ## `ToPackageName` -/

theorem ReplaceAll_eq_map (s : Str) (old new : Char) :
    ReplaceAll s old [new] = s.map (fun c => if c = old then new else c) := by
  induction s with
  | nil => rfl
  | cons c cs ih =>
    rw [ReplaceAll, ih, List.map_cons]
    by_cases h : c = old <;> simp [h]

/-- The character `ToPackageName` writes for one character of its input. -/
theorem ToPackageName_eq_map (s : Str) :
    ToPackageName s =
      s.map (fun c => if toLowerRune c = '-' ∨ toLowerRune c = '_' then '.'
        else toLowerRune c) := by
  have e : ".".toList = ['.'] := rfl
  unfold ToPackageName ToLower
  simp only
  rw [e, ReplaceAll_eq_map, ReplaceAll_eq_map, List.map_map, List.map_map]
  apply List.map_congr_left
  intro c _
  simp only [Function.comp_apply]
  by_cases h1 : toLowerRune c = '-'
  · simp [h1]
  · by_cases h2 : toLowerRune c = '_'
    · simp [h1, h2]
    · simp [h1, h2]

/-- What the map of `ToPackageName` does on one ASCII character. -/
theorem packageChar_facts (c : Char) (hc : c.toNat < 128) :
    (if toLowerRune c = '-' ∨ toLowerRune c = '_' then '.' else toLowerRune c) =
        (if c = '-' ∨ c = '_' then '.' else toLowerRune c) ∧
      (if c = '-' ∨ c = '_' then '.' else toLowerRune c) ≠ '-' ∧
      (if c = '-' ∨ c = '_' then '.' else toLowerRune c) ≠ '_' ∧
      isUpperAZ (if c = '-' ∨ c = '_' then '.' else toLowerRune c) = false ∧
      (if c = '-' ∨ c = '_' then '.' else toLowerRune c).toNat < 128 ∧
      toLowerRune (if c = '-' ∨ c = '_' then '.' else toLowerRune c) =
        (if c = '-' ∨ c = '_' then '.' else toLowerRune c) :=
  ascii_cases (fun c =>
    (if toLowerRune c = '-' ∨ toLowerRune c = '_' then '.' else toLowerRune c) =
        (if c = '-' ∨ c = '_' then '.' else toLowerRune c) ∧
      (if c = '-' ∨ c = '_' then '.' else toLowerRune c) ≠ '-' ∧
      (if c = '-' ∨ c = '_' then '.' else toLowerRune c) ≠ '_' ∧
      isUpperAZ (if c = '-' ∨ c = '_' then '.' else toLowerRune c) = false ∧
      (if c = '-' ∨ c = '_' then '.' else toLowerRune c).toNat < 128 ∧
      toLowerRune (if c = '-' ∨ c = '_' then '.' else toLowerRune c) =
        (if c = '-' ∨ c = '_' then '.' else toLowerRune c)) (by decide) c hc

/-- C19: on an ASCII input `ToPackageName` returns the input with every `-` and
every `_` replaced by `.` and every other character lower-cased, position by
position; the result has the length of the input, holds no `-`, no `_` and no
upper-case letter, and `ToPackageName` leaves it unchanged. -/
theorem ToPackageName_ascii (s : Str) (h : IsAscii s) :
    ToPackageName s = s.map (fun c => if c = '-' ∨ c = '_' then '.' else toLowerRune c) ∧
      (ToPackageName s).length = s.length ∧
      '-' ∉ ToPackageName s ∧ '_' ∉ ToPackageName s ∧
      (∀ c ∈ ToPackageName s, isUpperAZ c = false) ∧
      ToPackageName (ToPackageName s) = ToPackageName s := by
  have hmap : ToPackageName s =
      s.map (fun c => if c = '-' ∨ c = '_' then '.' else toLowerRune c) := by
    rw [ToPackageName_eq_map]
    apply List.map_congr_left
    intro c hc
    exact (packageChar_facts c (h c hc)).1
  refine ⟨hmap, ?_, ?_, ?_, ?_, ?_⟩
  · rw [hmap, List.length_map]
  · rw [hmap]
    intro hm
    obtain ⟨c, hc, he⟩ := List.mem_map.mp hm
    exact (packageChar_facts c (h c hc)).2.1 he
  · rw [hmap]
    intro hm
    obtain ⟨c, hc, he⟩ := List.mem_map.mp hm
    exact (packageChar_facts c (h c hc)).2.2.1 he
  · rw [hmap]
    intro d hd
    obtain ⟨c, hc, rfl⟩ := List.mem_map.mp hd
    exact (packageChar_facts c (h c hc)).2.2.2.1
  · conv_lhs => rw [ToPackageName_eq_map]
    rw [hmap, List.map_map]
    apply List.map_congr_left
    intro c hc
    obtain ⟨_, h1, h2, _, _, h5⟩ := packageChar_facts c (h c hc)
    simp only [Function.comp_apply]
    rw [h5]
    simp [h1, h2]

/-- The package name of `My-App_Name`. -/
theorem ToPackageName_ascii_witness :
    ToPackageName "My-App_Name".toList =
        "My-App_Name".toList.map (fun c => if c = '-' ∨ c = '_' then '.' else toLowerRune c) ∧
      (ToPackageName "My-App_Name".toList).length = "My-App_Name".toList.length ∧
      '-' ∉ ToPackageName "My-App_Name".toList ∧ '_' ∉ ToPackageName "My-App_Name".toList ∧
      (∀ c ∈ ToPackageName "My-App_Name".toList, isUpperAZ c = false) ∧
      ToPackageName (ToPackageName "My-App_Name".toList) =
        ToPackageName "My-App_Name".toList :=
  ToPackageName_ascii "My-App_Name".toList (by decide)

/-! ## The empty input -/

/-- C20: each of the nine naming functions returns the empty string on the
empty string, with no slice out of range. -/
theorem naming_empty :
    ToJavaClassName "".toList = some "".toList ∧
      ToJavaVariableName "".toList = some "".toList ∧
      ToDatabaseTableName "".toList = "".toList ∧
      ToColumnName "".toList = "".toList ∧
      ToPackageName "".toList = "".toList ∧
      ToCamelCase "".toList = "".toList ∧
      ToCamelCaseFirstLower "".toList = some "".toList ∧
      ToSnakeCase "".toList = "".toList ∧
      ToKebabCase "".toList = "".toList := by
  decide

/-! ## The trace of the generator -/

theorem orReturn_ok {σ : Type} (w : World σ) (rest : World σ → World σ × Option Str) :
    orReturn (w, none) rest = rest w := rfl

theorem orReturn_err {σ : Type} (w : World σ) (err : Str)
    (rest : World σ → World σ × Option Str) :
    orReturn (w, some err) rest = (w, some err) := rfl

theorem orReturn_id {σ : Type} (r : World σ × Option Str) :
    orReturn r (fun w => (w, none)) = r := by
  obtain ⟨w, _ | e⟩ := r <;> rfl

theorem generateCalls_append (a b : List Call) :
    generateCalls (a ++ b) = generateCalls a ++ generateCalls b := by
  induction a with
  | nil => rfl
  | cons c cs ih => cases c <;> simp [generateCalls, ih]

theorem writtenFiles_append (a b : List Call) :
    writtenFiles (a ++ b) = writtenFiles a ++ writtenFiles b := by
  induction a with
  | nil => rfl
  | cons c cs ih =>
    cases c with
    | writeFile p c e => cases e <;> simp [writtenFiles, ih]
    | _ => simp [writtenFiles, ih]

theorem readFiles_append (a b : List Call) :
    readFiles (a ++ b) = readFiles a ++ readFiles b := by
  induction a with
  | nil => rfl
  | cons c cs ih => cases c <;> simp [readFiles, ih]

/-- What `WriteFile` adds to the trace: no call of `generateFromTemplate`, no
read, and the file itself exactly when it returns no error. -/
theorem WriteFile_trace {σ : Type} (env : Env σ) (path content : Str) (w : World σ) :
    ∃ evs, (WriteFile env path content w).1.trace = w.trace ++ evs ∧
      generateCalls evs = [] ∧ readFiles evs = [] ∧
      ((WriteFile env path content w).2 = none → writtenFiles evs = [(path, content)]) ∧
      (∀ e, (WriteFile env path content w).2 = some e → writtenFiles evs = []) := by
  unfold WriteFile CreateDirectory
  by_cases hne : env.statNotExist w.fs (env.dir path) = true
  · simp only [hne, if_true]
    cases hm : (env.mkdirAll w.fs (env.dir path)).2 with
    | some e =>
      refine ⟨[Call.mkdirAll (env.dir path)], ?_⟩
      simp [orReturn, hm, generateCalls, readFiles, writtenFiles]
    | none =>
      cases hw : (env.osWriteFile (env.mkdirAll w.fs (env.dir path)).1 path content).2 with
      | some e =>
        refine ⟨[Call.mkdirAll (env.dir path), Call.writeFile path content (some e)], ?_⟩
        simp [orReturn, hm, hw, generateCalls, readFiles, writtenFiles]
      | none =>
        refine ⟨[Call.mkdirAll (env.dir path), Call.writeFile path content none], ?_⟩
        simp [orReturn, hm, hw, generateCalls, readFiles, writtenFiles]
  · simp only [hne]
    cases hw : (env.osWriteFile w.fs path content).2 with
    | some e =>
      refine ⟨[Call.writeFile path content (some e)], ?_⟩
      simp [orReturn, hw, generateCalls, readFiles, writtenFiles]
    | none =>
      refine ⟨[Call.writeFile path content none], ?_⟩
      simp [orReturn, hw, generateCalls, readFiles, writtenFiles]

/-- What one call of `generateFromTemplate` adds to the trace: the call itself,
the read of one template file, chosen by the existence of the override
directory, and the output file exactly when the call returns no error. -/
theorem generateFromTemplate_trace {σ : Type} (env : Env σ) (g : EntityGenerator)
    (t o : Str) (data : TemplateData) (w : World σ) :
    ∃ evs, (generateFromTemplate env g t o data w).1.trace = w.trace ++ evs ∧
      generateCalls evs = [(t, o, data)] ∧
      readFiles evs =
        [env.pathJoin
          [if env.statOk w.fs (env.pathJoin [g.ProjectDir, g.Config.Templates.Directory]) then
              env.pathJoin [g.ProjectDir, g.Config.Templates.Directory]
            else env.pathJoin ["pkg".toList, "templates".toList], t]] ∧
      ((generateFromTemplate env g t o data w).2 = none →
        ∃ content, writtenFiles evs = [(o, content)]) ∧
      (∀ e, (generateFromTemplate env g t o data w).2 = some e → writtenFiles evs = []) := by
  unfold generateFromTemplate
  simp only
  generalize env.pathJoin
    [if env.statOk w.fs (env.pathJoin [g.ProjectDir, g.Config.Templates.Directory]) = true then
        env.pathJoin [g.ProjectDir, g.Config.Templates.Directory]
      else env.pathJoin ["pkg".toList, "templates".toList], t] = file
  cases hr : env.readFile w.fs file with
  | error e =>
    refine ⟨[Call.generate t o data, Call.readFile file], ?_⟩
    simp [generateCalls, readFiles, writtenFiles]
  | ok content =>
    cases hp : env.parse t content with
    | error e =>
      refine ⟨[Call.generate t o data, Call.readFile file], ?_⟩
      simp [hp, generateCalls, readFiles, writtenFiles]
    | ok tmpl =>
      cases hx : Execute tmpl data with
      | error e =>
        refine ⟨[Call.generate t o data, Call.readFile file], ?_⟩
        simp [hp, hx, generateCalls, readFiles, writtenFiles]
      | ok buf =>
        simp only [hp, hx]
        obtain ⟨evs, h1, h2, h3, h4, h5⟩ := WriteFile_trace env o buf
          { fs := w.fs, trace := w.trace ++ [Call.generate t o data] ++ [Call.readFile file] }
        refine ⟨[Call.generate t o data, Call.readFile file] ++ evs, ?_, ?_, ?_, ?_, ?_⟩
        · rw [h1]; simp
        · rw [generateCalls_append, h2]; rfl
        · rw [readFiles_append, h3]; rfl
        · intro hn
          exact ⟨buf, by rw [writtenFiles_append, h4 hn]; rfl⟩
        · intro e he
          rw [writtenFiles_append, h5 e he]; rfl

/-- The steps of `GenerateEntity` are the generation, in order, of the
artifacts it asks for. -/
theorem generateSteps_eq_runArtifacts {σ : Type} (env : Env σ) (g : EntityGenerator)
    (name : Str) (data : TemplateData)
    (generateDto generateRepo generateService generateController : Bool) (w : World σ) :
    generateSteps env g name data generateDto generateRepo generateService generateController w =
      runArtifacts env g data
        (artifacts env g name generateDto generateRepo generateService generateController) w := by
  unfold generateSteps artifacts
  cases generateDto <;> cases generateRepo <;> cases generateService <;>
    cases generateController <;>
    simp only [if_true, if_false, Bool.false_eq_true, List.append_nil, List.singleton_append,
      List.cons_append, List.nil_append, runArtifacts, orReturn_ok, orReturn_id]

/-- The artifacts that succeed are passed over. -/
theorem runArtifacts_append {σ : Type} (env : Env σ) (g : EntityGenerator)
    (data : TemplateData) (pre post : List (Str × Str)) (w w1 : World σ)
    (h : runArtifacts env g data pre w = (w1, none)) :
    runArtifacts env g data (pre ++ post) w = runArtifacts env g data post w1 := by
  induction pre generalizing w with
  | nil =>
    simp only [runArtifacts, Prod.mk.injEq, and_true] at h
    rw [h]; rfl
  | cons a rest ih =>
    rw [List.cons_append, runArtifacts]
    rw [runArtifacts] at h
    rcases hg : generateFromTemplate env g a.1 a.2 data w with ⟨w0, _ | e⟩
    · rw [hg, orReturn_ok] at h
      rw [orReturn_ok]
      exact ih w0 h
    · rw [hg, orReturn_err] at h
      simp at h

/-- The trace of a run of artifacts: the calls are those of a prefix of the
list, all of it when no error is returned. -/
theorem runArtifacts_calls {σ : Type} (env : Env σ) (g : EntityGenerator)
    (data : TemplateData) (arts : List (Str × Str)) (w : World σ) :
    ∃ n, n ≤ arts.length ∧ (arts ≠ [] → 1 ≤ n) ∧
      generateCalls (runArtifacts env g data arts w).1.trace =
        generateCalls w.trace ++ (arts.take n).map (fun a => (a.1, a.2, data)) ∧
      ((runArtifacts env g data arts w).2 = none → n = arts.length) := by
  induction arts generalizing w with
  | nil => exact ⟨0, by simp, by simp, by simp [runArtifacts], by simp⟩
  | cons a rest ih =>
    obtain ⟨evs, h1, h2, -, -, -⟩ := generateFromTemplate_trace env g a.1 a.2 data w
    rw [runArtifacts]
    rcases hg : generateFromTemplate env g a.1 a.2 data w with ⟨w0, _ | e⟩
    · rw [hg] at h1
      have h1' : w0.trace = w.trace ++ evs := h1
      rw [orReturn_ok]
      obtain ⟨n, hn1, -, hn3, hn4⟩ := ih w0
      refine ⟨n + 1, by simpa using hn1, by simp, ?_, ?_⟩
      · rw [hn3, h1', generateCalls_append, h2]
        simp
      · intro hnone
        rw [hn4 hnone]; rfl
    · rw [hg] at h1
      have h1' : w0.trace = w.trace ++ evs := h1
      rw [orReturn_err]
      refine ⟨1, by simp, by simp, ?_, by simp⟩
      show generateCalls w0.trace = _
      rw [h1', generateCalls_append, h2]
      simp

/-! ## No slice or index out of range -/

theorem ToJavaVariableName_eq (name : Str) :
    ToJavaVariableName name = some (lowerFirst (Pascal (splitByCase name))) := by
  unfold ToJavaVariableName
  rw [ToJavaClassName_eq]
  cases h : Pascal (splitByCase name) with
  | nil => rfl
  | cons c cs => simp [slice, sliceFrom, lowerFirst, ToLower]

theorem ToCamelCaseFirstLower_eq (s : Str) :
    ToCamelCaseFirstLower s = some (lowerFirst (ToCamelCase s)) := by
  unfold ToCamelCaseFirstLower
  cases h : ToCamelCase s with
  | nil => rfl
  | cons c cs => simp [slice, sliceFrom, lowerFirst, ToLower]

theorem parseRelationsLoop_isSome (toks : List Str) (acc : List RelationMap) :
    ∃ r, parseRelationsLoop toks acc = some r := by
  induction toks generalizing acc with
  | nil => exact ⟨_, rfl⟩
  | cons t ts ih =>
    by_cases h3 : (Split t ':').length = 3
    · cases hv : validTypes ((Split t ':').getD 0 [])
      · exact ⟨_, parseRelationsLoop_type t ts acc h3 hv⟩
      · rw [parseRelationsLoop_step t ts acc h3 hv]
        exact ih _
    · exact ⟨_, parseRelationsLoop_format t ts acc h3⟩

theorem ParseFieldDefinitions_isSome (fields : Str) :
    ∃ r, ParseFieldDefinitions fields = some r := by
  by_cases hne : fields = []
  · subst hne
    exact ⟨_, rfl⟩
  · rw [parseFields_of_ne_nil fields hne]
    cases (Split fields ' ').find? (fun t => decide (':' ∉ t)) <;> exact ⟨_, rfl⟩

theorem ParseRelationships_isSome (relations : Str) :
    ∃ r, ParseRelationships relations = some r := by
  by_cases hne : relations = []
  · subst hne
    exact ⟨_, rfl⟩
  · rw [parseRelations_of_ne_nil relations hne]
    exact parseRelationsLoop_isSome _ _

/-- C21: for every input string, the functions that index or slice return a
value: `ToJavaClassName` (`word[0:1]`, `word[1:]`), `ToJavaVariableName`
(`className[0:1]`, `className[1:]`), `ToCamelCaseFirstLower` (`s[:1]`,
`s[1:]`), `ParseFieldDefinitions` and `ParseRelationships` (`parts[0]`,
`parts[1]`, `parts[2]`) never take the panic branch; the other naming
functions have no index or slice expression. -/
theorem naming_and_parsers_total (s : Str) :
    (∃ r, ToJavaClassName s = some r) ∧ (∃ r, ToJavaVariableName s = some r) ∧
      (∃ r, ToCamelCaseFirstLower s = some r) ∧
      (∃ r, ParseFieldDefinitions s = some r) ∧ (∃ r, ParseRelationships s = some r) ∧
      (∀ words, ∃ r, classNameLoop words = some r) :=
  ⟨⟨_, ToJavaClassName_eq s⟩, ⟨_, ToJavaVariableName_eq s⟩, ⟨_, ToCamelCaseFirstLower_eq s⟩,
    ParseFieldDefinitions_isSome s, ParseRelationships_isSome s,
    fun words => ⟨_, classNameLoop_eq words⟩⟩

/-! ## `GenerateEntity` -/

/-- When both specifications parse, `GenerateEntity` is the generation of its
artifacts with the binding map `entityData`. -/
theorem GenerateEntity_eq {σ : Type} (env : Env σ) (g : EntityGenerator)
    (name fieldsStr relationsStr tableName : Str)
    (audit lombok generateDto generateRepo generateService generateController : Bool)
    (w : World σ) (fields : List FieldMap) (relations : List RelationMap)
    (hf : ParseFieldDefinitions fieldsStr = some (fields, none))
    (hr : ParseRelationships relationsStr = some (relations, none)) :
    GenerateEntity env g name fieldsStr relationsStr tableName audit lombok generateDto
        generateRepo generateService generateController w =
      some (runArtifacts env g (entityData g name tableName fields relations audit lombok)
        (artifacts env g name generateDto generateRepo generateService generateController) w) := by
  unfold GenerateEntity
  simp only [hf, hr, ToJavaVariableName_eq, generateSteps_eq_runArtifacts]
  rfl

/-- The files written by a run of artifacts that returns no error: one per
artifact, at its output path, in order. -/
theorem runArtifacts_written {σ : Type} (env : Env σ) (g : EntityGenerator)
    (data : TemplateData) (arts : List (Str × Str)) (w w1 : World σ)
    (h : runArtifacts env g data arts w = (w1, none)) :
    ∃ contents : List Str, contents.length = arts.length ∧
      writtenFiles w1.trace = writtenFiles w.trace ++ List.zip (arts.map Prod.snd) contents := by
  induction arts generalizing w with
  | nil =>
    simp only [runArtifacts, Prod.mk.injEq, and_true] at h
    subst h
    exact ⟨[], rfl, by simp⟩
  | cons a rest ih =>
    obtain ⟨evs, h1, -, -, h4, -⟩ := generateFromTemplate_trace env g a.1 a.2 data w
    rw [runArtifacts] at h
    rcases hg : generateFromTemplate env g a.1 a.2 data w with ⟨w0, _ | e⟩
    · rw [hg] at h h1 h4
      rw [orReturn_ok] at h
      have h1' : w0.trace = w.trace ++ evs := h1
      obtain ⟨content, hc⟩ := h4 rfl
      obtain ⟨contents, hl, hw⟩ := ih w0 h
      refine ⟨content :: contents, by simp [hl], ?_⟩
      rw [hw, h1', writtenFiles_append, hc]
      simp
    · rw [hg, orReturn_err] at h
      simp at h

/-- The bindings of every call of `generateFromTemplate` made by
`GenerateEntity`, and the entity artifact is always asked for. -/
theorem GenerateEntity_calls {σ : Type} (env : Env σ) (g : EntityGenerator)
    (name fieldsStr relationsStr tableName : Str)
    (audit lombok generateDto generateRepo generateService generateController : Bool)
    (w : World σ) (fields : List FieldMap) (relations : List RelationMap)
    (hf : ParseFieldDefinitions fieldsStr = some (fields, none))
    (hr : ParseRelationships relationsStr = some (relations, none)) :
    ∃ w1 err calls,
      GenerateEntity env g name fieldsStr relationsStr tableName audit lombok generateDto
        generateRepo generateService generateController w = some (w1, err) ∧
      generateCalls w1.trace = generateCalls w.trace ++ calls ∧ calls ≠ [] ∧
      ∀ c ∈ calls, c.2.2 = entityData g name tableName fields relations audit lombok := by
  rw [GenerateEntity_eq env g name fieldsStr relationsStr tableName audit lombok generateDto
    generateRepo generateService generateController w fields relations hf hr]
  obtain ⟨n, -, hn2, hn3, -⟩ := runArtifacts_calls env g
    (entityData g name tableName fields relations audit lombok)
    (artifacts env g name generateDto generateRepo generateService generateController) w
  have hne : artifacts env g name generateDto generateRepo generateService generateController
      ≠ [] := by simp [artifacts]
  refine ⟨_, _, _, rfl, hn3, ?_, ?_⟩
  · have h1 := hn2 hne
    cases hn : n with
    | zero => omega
    | succ m =>
      cases ha : artifacts env g name generateDto generateRepo generateService
          generateController with
      | nil => exact absurd ha hne
      | cons a rest => simp
  · intro c hc
    obtain ⟨a, -, rfl⟩ := List.mem_map.mp hc
    rfl

/-- C22: when both specifications parse, the table name bound in every render
that `GenerateEntity` asks for (there is at least one) is the `tableName`
argument itself when it is not empty, and `ToDatabaseTableName name` when it is
empty. -/
theorem GenerateEntity_tableName {σ : Type} (env : Env σ) (g : EntityGenerator)
    (name fieldsStr relationsStr tableName : Str)
    (audit lombok generateDto generateRepo generateService generateController : Bool)
    (w : World σ) (fields : List FieldMap) (relations : List RelationMap)
    (hf : ParseFieldDefinitions fieldsStr = some (fields, none))
    (hr : ParseRelationships relationsStr = some (relations, none)) :
    ∃ w1 err calls,
      GenerateEntity env g name fieldsStr relationsStr tableName audit lombok generateDto
        generateRepo generateService generateController w = some (w1, err) ∧
      generateCalls w1.trace = generateCalls w.trace ++ calls ∧ calls ≠ [] ∧
      (tableName ≠ [] → ∀ c ∈ calls, c.2.2.tableName = tableName) ∧
      (tableName = [] → ∀ c ∈ calls, c.2.2.tableName = ToDatabaseTableName name) := by
  obtain ⟨w1, err, calls, h1, h2, h3, h4⟩ := GenerateEntity_calls env g name fieldsStr
    relationsStr tableName audit lombok generateDto generateRepo generateService
    generateController w fields relations hf hr
  refine ⟨w1, err, calls, h1, h2, h3, ?_, ?_⟩
  · intro hne c hc
    rw [h4 c hc]
    simp [entityData, hne]
  · intro he c hc
    rw [h4 c hc]
    simp [entityData, he]

/-- The entity `User` with the explicit table name `t_users`, in a world
without templates. -/
theorem GenerateEntity_tableName_witness :
    ∃ w1 err calls,
      GenerateEntity (memEnv false textParse) demoGenerator "User".toList "id:Long".toList
        "".toList "t_users".toList true true true true true true (startWorld []) =
          some (w1, err) ∧
      generateCalls w1.trace = generateCalls (startWorld []).trace ++ calls ∧ calls ≠ [] ∧
      ("t_users".toList ≠ [] → ∀ c ∈ calls, c.2.2.tableName = "t_users".toList) ∧
      ("t_users".toList = [] →
        ∀ c ∈ calls, c.2.2.tableName = ToDatabaseTableName "User".toList) :=
  GenerateEntity_tableName (memEnv false textParse) demoGenerator "User".toList
    "id:Long".toList "".toList "t_users".toList true true true true true true (startWorld [])
    _ _ rfl rfl

/-- C23 (counterexample): for the entity `BlogPost` with an empty table name,
the one render asked for in a world without templates is given the table name
`blog_post`, which is not `blog_posts`. -/
theorem GenerateEntity_BlogPost_counterexample :
    (GenerateEntity (memEnv false textParse) demoGenerator "BlogPost".toList
        "title:String content:String:nullable".toList "".toList "".toList
        true true true true true true (startWorld [])).map
      (fun r => (generateCalls r.1.trace).map (fun c => c.2.2.tableName)) =
        some ["blog_post".toList] ∧
      "blog_post".toList ≠ "blog_posts".toList := by
  decide

/-- C23 (amended): for the entity name `BlogPost` with no explicit table name,
the table name that `GenerateEntity` derives and binds in every render is the
snake_case form `blog_post`, with no plural. -/
theorem GenerateEntity_BlogPost {σ : Type} (env : Env σ) (g : EntityGenerator)
    (fieldsStr relationsStr : Str)
    (audit lombok generateDto generateRepo generateService generateController : Bool)
    (w : World σ) (fields : List FieldMap) (relations : List RelationMap)
    (hf : ParseFieldDefinitions fieldsStr = some (fields, none))
    (hr : ParseRelationships relationsStr = some (relations, none)) :
    ∃ w1 err calls,
      GenerateEntity env g "BlogPost".toList fieldsStr relationsStr "".toList audit lombok
        generateDto generateRepo generateService generateController w = some (w1, err) ∧
      generateCalls w1.trace = generateCalls w.trace ++ calls ∧ calls ≠ [] ∧
      ∀ c ∈ calls, c.2.2.tableName = "blog_post".toList := by
  obtain ⟨w1, err, calls, h1, h2, h3, h4⟩ := GenerateEntity_calls env g "BlogPost".toList
    fieldsStr relationsStr "".toList audit lombok generateDto generateRepo generateService
    generateController w fields relations hf hr
  refine ⟨w1, err, calls, h1, h2, h3, ?_⟩
  intro c hc
  rw [h4 c hc]
  show (if ("".toList : Str) = [] then ToDatabaseTableName "BlogPost".toList else "".toList) =
    "blog_post".toList
  decide

/-- The amended statement in a world without templates. -/
theorem GenerateEntity_BlogPost_witness :
    ∃ w1 err calls,
      GenerateEntity (memEnv false textParse) demoGenerator "BlogPost".toList
        "title:String content:String:nullable".toList "".toList "".toList
        true true true true true true (startWorld []) = some (w1, err) ∧
      generateCalls w1.trace = generateCalls (startWorld []).trace ++ calls ∧ calls ≠ [] ∧
      ∀ c ∈ calls, c.2.2.tableName = "blog_post".toList :=
  GenerateEntity_BlogPost (memEnv false textParse) demoGenerator
    "title:String content:String:nullable".toList "".toList
    true true true true true true (startWorld []) _ _ rfl rfl

/-- C25: when the parser of the field specification returns an error,
`GenerateEntity` returns that error and the world is unchanged (nothing is
read, nothing is written), whatever the relationship specification is; when
the field specification parses and the parser of the relationship
specification returns an error, it returns that error, with the world
unchanged as well. -/
theorem GenerateEntity_parse_error {σ : Type} (env : Env σ) (g : EntityGenerator)
    (name fieldsStr relationsStr tableName : Str)
    (audit lombok generateDto generateRepo generateService generateController : Bool)
    (w : World σ) :
    (∀ recs e, ParseFieldDefinitions fieldsStr = some (recs, some e) →
        GenerateEntity env g name fieldsStr relationsStr tableName audit lombok generateDto
          generateRepo generateService generateController w = some (w, some e)) ∧
      (∀ fields recs e, ParseFieldDefinitions fieldsStr = some (fields, none) →
        ParseRelationships relationsStr = some (recs, some e) →
        GenerateEntity env g name fieldsStr relationsStr tableName audit lombok generateDto
          generateRepo generateService generateController w = some (w, some e)) := by
  constructor
  · intro recs e hf
    unfold GenerateEntity
    simp only [hf]
  · intro fields recs e hf hr
    unfold GenerateEntity
    simp only [hf, hr]

/-- Both specifications are invalid: the error is the one of the field
specification, and the world is the one before the call. -/
theorem GenerateEntity_parse_error_witness :
    GenerateEntity (memEnv false textParse) demoGenerator "User".toList "bad".toList
        "worse".toList "".toList true true true true true true (startWorld []) =
      some (startWorld [], some (fieldFormatError "bad".toList)) :=
  (GenerateEntity_parse_error (memEnv false textParse) demoGenerator "User".toList
    "bad".toList "worse".toList "".toList true true true true true true (startWorld [])).1
    [] (fieldFormatError "bad".toList) (by decide)

/-- C24: when both specifications parse and `GenerateEntity` returns no error,
the renders it asked for are, in this order and once each, `entity/entity.tmpl`
(file `name.java`), then `entity/repository.tmpl` exactly when `generateRepo`
(`nameRepository.java`), `entity/service.tmpl` exactly when `generateService`
(`nameService.java`), `entity/controller.tmpl` exactly when
`generateController` (`nameController.java`) and `entity/dto.tmpl` exactly when
`generateDto` (`nameDTO.java`); their number is one plus the number of switches
set, every one is given the same binding map, and each output file is
written. -/
theorem GenerateEntity_render_order {σ : Type} (env : Env σ) (g : EntityGenerator)
    (name fieldsStr relationsStr tableName : Str)
    (audit lombok generateDto generateRepo generateService generateController : Bool)
    (w : World σ) (fields : List FieldMap) (relations : List RelationMap)
    (hf : ParseFieldDefinitions fieldsStr = some (fields, none))
    (hr : ParseRelationships relationsStr = some (relations, none)) (w1 : World σ)
    (hok : GenerateEntity env g name fieldsStr relationsStr tableName audit lombok generateDto
      generateRepo generateService generateController w = some (w1, none)) :
    generateCalls w1.trace = generateCalls w.trace ++
        ([("entity/entity.tmpl".toList,
            javaPath env g "domain/entity".toList (name ++ ".java".toList))]
          ++ (if generateRepo then
                [("entity/repository.tmpl".toList,
                  javaPath env g "repository".toList (name ++ "Repository.java".toList))]
              else [])
          ++ (if generateService then
                [("entity/service.tmpl".toList,
                  javaPath env g "service".toList (name ++ "Service.java".toList))]
              else [])
          ++ (if generateController then
                [("entity/controller.tmpl".toList,
                  javaPath env g "controller".toList (name ++ "Controller.java".toList))]
              else [])
          ++ (if generateDto then
                [("entity/dto.tmpl".toList,
                  javaPath env g "dto".toList (name ++ "DTO.java".toList))]
              else [])).map
          (fun a => (a.1, a.2, entityData g name tableName fields relations audit lombok)) ∧
      (artifacts env g name generateDto generateRepo generateService generateController).length =
        1 + generateRepo.toNat + generateService.toNat + generateController.toNat +
          generateDto.toNat ∧
      ∃ contents : List Str,
        contents.length =
          (artifacts env g name generateDto generateRepo generateService
            generateController).length ∧
        writtenFiles w1.trace = writtenFiles w.trace ++
          List.zip ((artifacts env g name generateDto generateRepo generateService
            generateController).map Prod.snd) contents := by
  rw [GenerateEntity_eq env g name fieldsStr relationsStr tableName audit lombok generateDto
    generateRepo generateService generateController w fields relations hf hr] at hok
  simp only [Option.some.injEq] at hok
  obtain ⟨n, -, -, hn3, hn4⟩ := runArtifacts_calls env g
    (entityData g name tableName fields relations audit lombok)
    (artifacts env g name generateDto generateRepo generateService generateController) w
  rw [hok] at hn3 hn4
  have hn := hn4 rfl
  refine ⟨?_, ?_, runArtifacts_written env g _ _ w w1 hok⟩
  · have : generateCalls w1.trace = generateCalls w.trace ++
        (artifacts env g name generateDto generateRepo generateService generateController).map
          (fun a => (a.1, a.2, entityData g name tableName fields relations audit lombok)) := by
      rw [hn3, hn, List.take_length]
    exact this
  · cases generateDto <;> cases generateRepo <;> cases generateService <;>
      cases generateController <;> rfl

/-- All switches set but the DTO, in the world with the built-in templates:
four renders, in the order entity, repository, service, controller. -/
theorem GenerateEntity_render_order_witness :
    ∃ w1, GenerateEntity (memEnv false textParse) demoGenerator "User".toList
        "id:Long".toList "".toList "".toList true true false true true true
        (startWorld demoTemplates) = some (w1, none) ∧
      (generateCalls w1.trace).map (fun c => c.1) =
        ["entity/entity.tmpl".toList, "entity/repository.tmpl".toList,
          "entity/service.tmpl".toList, "entity/controller.tmpl".toList] ∧
      (writtenFiles w1.trace).map (fun f => f.1) =
        ["./src/main/java/com/x/domain/entity/User.java".toList,
          "./src/main/java/com/x/repository/UserRepository.java".toList,
          "./src/main/java/com/x/service/UserService.java".toList,
          "./src/main/java/com/x/controller/UserController.java".toList] :=
  ⟨_, rfl,
    by
      rw [(GenerateEntity_render_order (memEnv false textParse) demoGenerator "User".toList
        "id:Long".toList "".toList "".toList true true false true true true
        (startWorld demoTemplates) _ _ rfl rfl _ rfl).1]
      decide,
    by decide⟩

/-- C26: generation is not atomic. When both specifications parse, the
artifacts before `a` in the list asked for are generated without error and the
generation of `a` returns the error `e`, then `GenerateEntity` returns `e`; the
renders asked for are those up to `a` and none after it; the files of the
artifacts before `a` have been written and are still in the list of written
files at the end; and no file is written for `a`. -/
theorem GenerateEntity_not_atomic {σ : Type} (env : Env σ) (g : EntityGenerator)
    (name fieldsStr relationsStr tableName : Str)
    (audit lombok generateDto generateRepo generateService generateController : Bool)
    (w : World σ) (fields : List FieldMap) (relations : List RelationMap)
    (hf : ParseFieldDefinitions fieldsStr = some (fields, none))
    (hr : ParseRelationships relationsStr = some (relations, none))
    (pre post : List (Str × Str)) (a : Str × Str) (w1 w2 : World σ) (e : Str)
    (harts : artifacts env g name generateDto generateRepo generateService generateController =
      pre ++ a :: post)
    (hpre : runArtifacts env g (entityData g name tableName fields relations audit lombok)
      pre w = (w1, none))
    (hfail : generateFromTemplate env g a.1 a.2
      (entityData g name tableName fields relations audit lombok) w1 = (w2, some e)) :
    GenerateEntity env g name fieldsStr relationsStr tableName audit lombok generateDto
        generateRepo generateService generateController w = some (w2, some e) ∧
      generateCalls w2.trace = generateCalls w.trace ++
        (pre ++ [a]).map
          (fun b => (b.1, b.2, entityData g name tableName fields relations audit lombok)) ∧
      (∃ contents : List Str, contents.length = pre.length ∧
        writtenFiles w1.trace = writtenFiles w.trace ++ List.zip (pre.map Prod.snd) contents) ∧
      writtenFiles w2.trace = writtenFiles w1.trace := by
  have hrun : runArtifacts env g (entityData g name tableName fields relations audit lombok)
      (pre ++ a :: post) w = (w2, some e) := by
    rw [runArtifacts_append env g _ pre (a :: post) w w1 hpre, runArtifacts, hfail, orReturn_err]
  obtain ⟨evs, h1, h2, -, -, h5⟩ := generateFromTemplate_trace env g a.1 a.2
    (entityData g name tableName fields relations audit lombok) w1
  rw [hfail] at h1 h5
  have h1' : w2.trace = w1.trace ++ evs := h1
  obtain ⟨n, -, -, hn3, hn4⟩ := runArtifacts_calls env g
    (entityData g name tableName fields relations audit lombok) pre w
  rw [hpre] at hn3 hn4
  have hn := hn4 rfl
  refine ⟨?_, ?_, runArtifacts_written env g _ pre w w1 hpre, ?_⟩
  · rw [GenerateEntity_eq env g name fieldsStr relationsStr tableName audit lombok generateDto
      generateRepo generateService generateController w fields relations hf hr, harts, hrun]
  · have hc1 : generateCalls w1.trace = generateCalls w.trace ++
        pre.map (fun b => (b.1, b.2,
          entityData g name tableName fields relations audit lombok)) := by
      rw [hn3, hn, List.take_length]
    rw [h1', generateCalls_append, hc1, h2]
    simp
  · rw [h1', writtenFiles_append, h5 e rfl]
    simp

/-- Only the entity template exists: the entity file is written, the
repository fails on its missing template, and nothing more is asked for. -/
theorem GenerateEntity_not_atomic_witness :
    ∃ w2 e, GenerateEntity (memEnv false textParse) demoGenerator "User".toList
        "id:Long".toList "".toList "".toList true true true true true true
        (startWorld [("pkg/templates/entity/entity.tmpl".toList, "entity".toList)]) =
          some (w2, some e) ∧
      (generateCalls w2.trace).map (fun c => c.1) =
        ["entity/entity.tmpl".toList, "entity/repository.tmpl".toList] ∧
      writtenFiles w2.trace =
        [("./src/main/java/com/x/domain/entity/User.java".toList, "entity".toList)] :=
  have h := GenerateEntity_not_atomic (memEnv false textParse) demoGenerator "User".toList
    "id:Long".toList "".toList "".toList true true true true true true
    (startWorld [("pkg/templates/entity/entity.tmpl".toList, "entity".toList)]) _ _ rfl rfl
    [("entity/entity.tmpl".toList,
      javaPath (memEnv false textParse) demoGenerator "domain/entity".toList
        "User.java".toList)]
    [("entity/service.tmpl".toList,
      javaPath (memEnv false textParse) demoGenerator "service".toList
        "UserService.java".toList),
     ("entity/controller.tmpl".toList,
      javaPath (memEnv false textParse) demoGenerator "controller".toList
        "UserController.java".toList),
     ("entity/dto.tmpl".toList,
      javaPath (memEnv false textParse) demoGenerator "dto".toList "UserDTO.java".toList)]
    ("entity/repository.tmpl".toList,
      javaPath (memEnv false textParse) demoGenerator "repository".toList
        "UserRepository.java".toList)
    _ _ _ rfl rfl rfl
  ⟨_, _, h.1, by rw [h.2.1]; decide, by rw [h.2.2.2]; decide⟩

/-! ## `generateFromTemplate` -/

/-- C27 (counterexample): the override directory exists and does not hold
`entity/entity.tmpl`, the built-in directory does; `generateFromTemplate`
reads the override file only and returns the error of that read: the built-in
template is not used. -/
theorem generateFromTemplate_fallback_counterexample :
    (memEnv true textParse).statOk demoTemplates "./tpl".toList = true ∧
      (memEnv true textParse).readFile demoTemplates
          "pkg/templates/entity/entity.tmpl".toList = .ok "entity".toList ∧
      (generateFromTemplate (memEnv true textParse) demoGenerator "entity/entity.tmpl".toList
          "out/User.java".toList demoData (startWorld demoTemplates)).2 =
        some "no such file".toList ∧
      readFiles (generateFromTemplate (memEnv true textParse) demoGenerator
          "entity/entity.tmpl".toList "out/User.java".toList demoData
          (startWorld demoTemplates)).1.trace = ["./tpl/entity/entity.tmpl".toList] ∧
      writtenFiles (generateFromTemplate (memEnv true textParse) demoGenerator
          "entity/entity.tmpl".toList "out/User.java".toList demoData
          (startWorld demoTemplates)).1.trace = [] := by
  refine ⟨rfl, rfl, ?_, ?_, ?_⟩ <;> decide

/-- C27 (amended): `generateFromTemplate` reads one file: the template under
`<ProjectDir>/<Templates.Directory>` when that directory exists, the template
under `pkg/templates` otherwise; when the file read is missing the call
returns the error of the read and writes nothing. So the call fails when
neither location has the file, and also when the override directory exists
without the file: the built-in template is used only when the override
directory does not exist. -/
theorem generateFromTemplate_resolution {σ : Type} (env : Env σ) (g : EntityGenerator)
    (t o : Str) (data : TemplateData) (w : World σ) :
    (env.statOk w.fs (env.pathJoin [g.ProjectDir, g.Config.Templates.Directory]) = true →
        readFiles (generateFromTemplate env g t o data w).1.trace =
          readFiles w.trace ++
            [env.pathJoin [env.pathJoin [g.ProjectDir, g.Config.Templates.Directory], t]] ∧
        ∀ e, env.readFile w.fs
            (env.pathJoin [env.pathJoin [g.ProjectDir, g.Config.Templates.Directory], t]) =
              .error e →
          (generateFromTemplate env g t o data w).2 = some e ∧
            writtenFiles (generateFromTemplate env g t o data w).1.trace =
              writtenFiles w.trace) ∧
      (env.statOk w.fs (env.pathJoin [g.ProjectDir, g.Config.Templates.Directory]) = false →
        readFiles (generateFromTemplate env g t o data w).1.trace =
          readFiles w.trace ++
            [env.pathJoin [env.pathJoin ["pkg".toList, "templates".toList], t]] ∧
        ∀ e, env.readFile w.fs
            (env.pathJoin [env.pathJoin ["pkg".toList, "templates".toList], t]) = .error e →
          (generateFromTemplate env g t o data w).2 = some e ∧
            writtenFiles (generateFromTemplate env g t o data w).1.trace =
              writtenFiles w.trace) := by
  obtain ⟨evs, h1, -, h3, -, h5⟩ := generateFromTemplate_trace env g t o data w
  constructor
  · intro hs
    rw [hs] at h3
    simp only [if_true] at h3
    refine ⟨by rw [h1, readFiles_append, h3], ?_⟩
    intro e he
    have hres : (generateFromTemplate env g t o data w).2 = some e := by
      unfold generateFromTemplate
      simp only [hs, if_true, he]
    exact ⟨hres, by rw [h1, writtenFiles_append, h5 e hres]; simp⟩
  · intro hs
    rw [hs] at h3
    simp only [Bool.false_eq_true, if_false] at h3
    refine ⟨by rw [h1, readFiles_append, h3], ?_⟩
    intro e he
    have hres : (generateFromTemplate env g t o data w).2 = some e := by
      unfold generateFromTemplate
      simp only [hs, Bool.false_eq_true, if_false, he]
    exact ⟨hres, by rw [h1, writtenFiles_append, h5 e hres]; simp⟩

/-- The amended statement in the world of the counterexample: the read is the
one of the override file, and its error is returned. -/
theorem generateFromTemplate_resolution_witness :
    readFiles (generateFromTemplate (memEnv true textParse) demoGenerator
        "entity/entity.tmpl".toList "out/User.java".toList demoData
        (startWorld demoTemplates)).1.trace =
      readFiles (startWorld demoTemplates).trace ++
        [(memEnv true textParse).pathJoin
          [(memEnv true textParse).pathJoin
            [demoGenerator.ProjectDir, demoGenerator.Config.Templates.Directory],
            "entity/entity.tmpl".toList]] ∧
      (generateFromTemplate (memEnv true textParse) demoGenerator "entity/entity.tmpl".toList
        "out/User.java".toList demoData (startWorld demoTemplates)).2 =
          some "no such file".toList :=
  have h := (generateFromTemplate_resolution (memEnv true textParse) demoGenerator
    "entity/entity.tmpl".toList "out/User.java".toList demoData (startWorld demoTemplates)).1 rfl
  ⟨h.1, (h.2 "no such file".toList rfl).1⟩

/-- C28 (counterexample): the template is the text `Hello ` followed by a
reference to the key `missing`, which the binding map does not have;
`generateFromTemplate` returns no error and writes the output file, with
`<no value>` in the place of the reference. -/
theorem generateFromTemplate_missing_key_counterexample :
    demoData.lookup "missing".toList = none ∧
      (generateFromTemplate (memEnv false missingKeyParse) demoGenerator
          "entity/entity.tmpl".toList "out/User.java".toList demoData
          (startWorld demoTemplates)).2 = none ∧
      writtenFiles (generateFromTemplate (memEnv false missingKeyParse) demoGenerator
          "entity/entity.tmpl".toList "out/User.java".toList demoData
          (startWorld demoTemplates)).1.trace =
        [("out/User.java".toList, "Hello <no value>".toList)] := by
  decide

theorem Execute_cons_ok (n : Node) (ns : List Node) (data : TemplateData) (a b : Str)
    (hn : execNode data n = .ok a) (hns : Execute ns data = .ok b) :
    Execute (n :: ns) data = .ok (a ++ b) := by
  simp only [Execute, hn, hns]

/-- An execution fails only with the error of one of the template's other
actions: literal text and references to keys never fail. -/
theorem Execute_error (tmpl : List Node) (data : TemplateData) (e : Str)
    (h : Execute tmpl data = .error e) :
    ∃ run, Node.action run ∈ tmpl ∧ run data = .error e := by
  induction tmpl with
  | nil => simp [Execute] at h
  | cons n ns ih =>
    cases hn : execNode data n with
    | error e1 =>
      simp only [Execute, hn, Except.error.injEq] at h
      subst h
      cases n with
      | text s => simp [execNode] at hn
      | field key => cases hl : data.lookup key <;> simp [execNode, hl] at hn
      | action run => exact ⟨run, by simp, hn⟩
    | ok out =>
      cases hns : Execute ns data with
      | error e2 =>
        simp only [Execute, hn, hns, Except.error.injEq] at h
        subst h
        obtain ⟨run, hmem, hrun⟩ := ih hns
        exact ⟨run, List.mem_cons_of_mem _ hmem, hrun⟩
      | ok rest => simp [Execute, hn, hns] at h

/-- When every other action succeeds, the execution succeeds. -/
theorem Execute_ok (tmpl : List Node) (data : TemplateData)
    (h : ∀ run, Node.action run ∈ tmpl → ∃ out, run data = .ok out) :
    ∃ out, Execute tmpl data = .ok out := by
  cases hx : Execute tmpl data with
  | ok out => exact ⟨out, rfl⟩
  | error e =>
    obtain ⟨run, hmem, hrun⟩ := Execute_error tmpl data e hx
    obtain ⟨out, hout⟩ := h run hmem
    rw [hout] at hrun
    simp at hrun

theorem Execute_append_ok (xs ys : List Node) (data : TemplateData) (a b : Str)
    (hx : Execute xs data = .ok a) (hy : Execute ys data = .ok b) :
    Execute (xs ++ ys) data = .ok (a ++ b) := by
  induction xs generalizing a with
  | nil =>
    simp only [Execute, Except.ok.injEq] at hx
    subst hx
    simpa using hy
  | cons n ns ih =>
    cases hn : execNode data n with
    | error e => simp [Execute, hn] at hx
    | ok out =>
      cases hns : Execute ns data with
      | error e => simp [Execute, hn, hns] at hx
      | ok rest =>
        simp only [Execute, hn, hns, Except.ok.injEq] at hx
        subst hx
        rw [List.cons_append, Execute_cons_ok n (ns ++ ys) data out (rest ++ b) hn
          (ih rest hns)]
        simp

/-- C28 (amended): a reference `{{.key}}` to a key that the binding map does
not have is not an error. In a template that holds such a reference and whose
other actions all succeed, the nodes before and after the reference render to
some texts `a` and `b`, the template renders to `a`, then `<no value>`, then
`b`, and `generateFromTemplate` passes exactly this text to `WriteFile` for the
output path, so the file is written with it whenever `WriteFile` returns no
error. A render fails only with the error of one of the other actions. -/
theorem generateFromTemplate_missing_key {σ : Type} (env : Env σ) (g : EntityGenerator)
    (t o content file : Str) (data : TemplateData) (w : World σ)
    (pre post : List Node) (key : Str)
    (hfile : file = env.pathJoin
      [if env.statOk w.fs (env.pathJoin [g.ProjectDir, g.Config.Templates.Directory]) = true then
          env.pathJoin [g.ProjectDir, g.Config.Templates.Directory]
        else env.pathJoin ["pkg".toList, "templates".toList], t])
    (hread : env.readFile w.fs file = .ok content)
    (hparse : env.parse t content = .ok (pre ++ Node.field key :: post))
    (hkey : data.lookup key = none)
    (hact : ∀ run, Node.action run ∈ pre ++ post → ∃ out, run data = .ok out) :
    (∃ a b, Execute pre data = .ok a ∧ Execute post data = .ok b ∧
        Execute (pre ++ Node.field key :: post) data = .ok (a ++ "<no value>".toList ++ b) ∧
        generateFromTemplate env g t o data w =
          WriteFile env o (a ++ "<no value>".toList ++ b)
            { fs := w.fs,
              trace := w.trace ++ [Call.generate t o data] ++ [Call.readFile file] } ∧
        ((generateFromTemplate env g t o data w).2 = none →
          writtenFiles (generateFromTemplate env g t o data w).1.trace =
            writtenFiles w.trace ++ [(o, a ++ "<no value>".toList ++ b)])) ∧
      (∀ (tmpl : List Node) (e : Str), Execute tmpl data = .error e →
        ∃ run, Node.action run ∈ tmpl ∧ run data = .error e) := by
  refine ⟨?_, fun tmpl e h => Execute_error tmpl data e h⟩
  obtain ⟨a, ha⟩ := Execute_ok pre data
    (fun run hm => hact run (List.mem_append.mpr (Or.inl hm)))
  obtain ⟨b, hb⟩ := Execute_ok post data
    (fun run hm => hact run (List.mem_append.mpr (Or.inr hm)))
  have hfield : execNode data (Node.field key) = .ok "<no value>".toList := by
    simp only [execNode, hkey]
  have hexec : Execute (pre ++ Node.field key :: post) data =
      .ok (a ++ "<no value>".toList ++ b) := by
    rw [Execute_append_ok pre _ data a ("<no value>".toList ++ b) ha
      (Execute_cons_ok _ post data _ b hfield hb), List.append_assoc]
  have hgen : generateFromTemplate env g t o data w =
      WriteFile env o (a ++ "<no value>".toList ++ b)
        { fs := w.fs,
          trace := w.trace ++ [Call.generate t o data] ++ [Call.readFile file] } := by
    subst hfile
    unfold generateFromTemplate
    simp only [hread, hparse, hexec]
  refine ⟨a, b, ha, hb, hexec, hgen, ?_⟩
  intro hnone
  obtain ⟨evs, h1, -, -, h4, -⟩ := WriteFile_trace env o (a ++ "<no value>".toList ++ b)
    { fs := w.fs, trace := w.trace ++ [Call.generate t o data] ++ [Call.readFile file] }
  rw [hgen] at hnone ⊢
  rw [h1, writtenFiles_append, h4 hnone]
  simp [writtenFiles_append, writtenFiles]

/-- A template with the reference to the absent key `missing` between two
texts and before an action that succeeds: the file is written, with
`<no value>` in the place of the reference. -/
theorem generateFromTemplate_missing_key_witness :
    (generateFromTemplate (memEnv false missingKeyActionParse) demoGenerator
        "entity/entity.tmpl".toList "out/User.java".toList demoData
        (startWorld demoTemplates)).2 = none ∧
      writtenFiles (generateFromTemplate (memEnv false missingKeyActionParse) demoGenerator
        "entity/entity.tmpl".toList "out/User.java".toList demoData
        (startWorld demoTemplates)).1.trace =
          [("out/User.java".toList, "Hello <no value>, USER".toList)] :=
  have h := (generateFromTemplate_missing_key (memEnv false missingKeyActionParse)
    demoGenerator "entity/entity.tmpl".toList "out/User.java".toList "entity".toList
    "pkg/templates/entity/entity.tmpl".toList demoData (startWorld demoTemplates)
    [Node.text "Hello ".toList]
    [Node.text ", ".toList, Node.action (fun data => .ok (ToUpper data.name))]
    "missing".toList rfl rfl rfl (by decide)
    (by
      intro run hm
      simp only [List.cons_append, List.nil_append, List.mem_cons, List.mem_singleton,
        List.not_mem_nil, or_false, reduceCtorEq, false_or, Node.action.injEq] at hm
      subst hm
      exact ⟨_, rfl⟩)).1
  have hnone : (generateFromTemplate (memEnv false missingKeyActionParse) demoGenerator
      "entity/entity.tmpl".toList "out/User.java".toList demoData
      (startWorld demoTemplates)).2 = none := by decide
  ⟨hnone, by
    obtain ⟨a, b, ha, hb, -, -, hw⟩ := h
    have ea : a = "Hello ".toList := by
      have : Execute [Node.text "Hello ".toList] demoData = .ok "Hello ".toList := rfl
      rw [this] at ha
      exact (Except.ok.inj ha).symm
    have eb : b = ", USER".toList := by
      have : Execute [Node.text ", ".toList, Node.action (fun data => .ok (ToUpper data.name))]
          demoData = .ok ", USER".toList := rfl
      rw [this] at hb
      exact (Except.ok.inj hb).symm
    rw [hw hnone, ea, eb]
    decide⟩

/-! ## Error precedence, and the names of the interactive generators -/

/-- C29: in a non-empty input, the error of `ParseRelationships` is the one of
the first token that is not accepted: with every token before `tok` accepted,
`tok` gives the invalid-format error when it does not have three parts,
whatever its first part is, and the invalid-type error only when it has three
parts and an unknown kind; the tokens after `tok` play no role. So
`hasOne:author` reports the invalid format, and `hasOne:a:B bad` the invalid
type. -/
theorem ParseRelationships_precedence (relations : Str) (hne : relations ≠ [])
    (pre post : List Str) (tok : Str)
    (hsplit : Split relations ' ' = pre ++ tok :: post)
    (hpre : ∀ t ∈ pre, (Split t ':').length = 3 ∧
      validTypes ((Split t ':').getD 0 []) = true) :
    ((Split tok ':').length ≠ 3 →
        ParseRelationships relations = some ([], some (relationFormatError tok))) ∧
      ((Split tok ':').length = 3 → validTypes ((Split tok ':').getD 0 []) = false →
        ParseRelationships relations =
          some ([], some (relationTypeError ((Split tok ':').getD 0 [])))) ∧
      ParseRelationships "hasOne:author".toList =
        some ([], some (relationFormatError "hasOne:author".toList)) ∧
      ParseRelationships "hasOne:a:B bad".toList =
        some ([], some (relationTypeError "hasOne".toList)) := by
  refine ⟨?_, ?_, by decide, by decide⟩
  · intro h
    rw [parseRelations_of_ne_nil relations hne, hsplit, parseRelationsLoop_append pre _ [] hpre,
      parseRelationsLoop_format tok post _ h]
  · intro h3 hv
    rw [parseRelations_of_ne_nil relations hne, hsplit, parseRelationsLoop_append pre _ [] hpre,
      parseRelationsLoop_type tok post _ h3 hv]

/-- An accepted token, then a token with two parts and an unknown first part,
then a token with three parts and an unknown kind: the invalid-format error of
the second token is returned. -/
theorem ParseRelationships_precedence_witness :
    ParseRelationships "oneToOne:a:B hasOne:author hasMany:x:Y".toList =
      some ([], some (relationFormatError "hasOne:author".toList)) :=
  (ParseRelationships_precedence "oneToOne:a:B hasOne:author hasMany:x:Y".toList (by decide)
    ["oneToOne:a:B".toList] ["hasMany:x:Y".toList] "hasOne:author".toList (by decide)
    (by decide)).1 (by decide)

/-- C30 (the code at the failing input): for the component name `user_account`
the class name is `UserAccount`, and the variable name, computed as
`ToCamelCaseFirstLower(className)`, is `useraccount`, not `userAccount`:
`ToCamelCaseFirstLower` runs `ToCamelCase` again, which lower-cases the inner
capital of the class name. -/
theorem interactive_names_user_account :
    interactiveClassName "user_account".toList = "UserAccount".toList ∧
      interactiveVariableName "user_account".toList = some "useraccount".toList ∧
      lowerFirst (interactiveClassName "user_account".toList) = "userAccount".toList ∧
      interactiveVariableName "user_account".toList ≠
        some (lowerFirst (interactiveClassName "user_account".toList)) ∧
      ToCamelCase "UserAccount".toList = "Useraccount".toList := by
  decide

end Springwell
